import Mathlib

/-
Verification of the quote-acceptance pipeline of `keylime/tpm/tpm_main.py`:
clock-monotonicity checking (`check_quote_timing`), PCR policy evaluation
(`check_pcrs`), the orchestrator (`check_quote`), the digest/extend primitive
(`sim_extend`), boot-aggregate computation (`__add_boot_aggregate`) and the
event-log unescape pass (`__unescape_eventlog`).

External collaborators (signature verification, clock extraction, the IMA and
measured-boot evaluators, the yaml decoder) are modelled as oracle inputs; the
`Failure`/`Event` accumulator, which lives outside the excerpted sources, is
modelled from the spec's Failure/Event data model.
-/

set_option maxRecDepth 4000

namespace KeylimeTpm

/-! ### Small utilities: decimal and hex rendering, association lists -/

/-- Value of a decimal digit character. -/
def digitVal (c : Char) : Nat := c.toNat - 48

/-- Digits of a natural number in base `b ≥ 2`, most significant first, with
explicit fuel so that the definition reduces inside the kernel. -/
def natDigitsAux (b : Nat) : Nat → Nat → List Char
  | 0, _ => []
  | fuel + 1, n =>
    if n < b then [Nat.digitChar n]
    else natDigitsAux b fuel (n / b) ++ [Nat.digitChar (n % b)]

/-- Decimal digits of a natural number, most significant first.
Mirrors Python `str(n)` for a non-negative `n`. -/
def natDigits (n : Nat) : List Char := natDigitsAux 10 (n + 1) n

/-- Python `str(n)` for a natural number. -/
def natRepr (n : Nat) : String := ⟨natDigits n⟩

/-- Hexadecimal digits (lowercase) of a natural number, most significant first.
Mirrors Python `hex(n)[2:]` for non-negative `n`. -/
def natHexDigits (n : Nat) : List Char := natDigitsAux 16 (n + 1) n

/-- Python `hex(n)[2:]` as a string. -/
def natHex (n : Nat) : String := ⟨natHexDigits n⟩

/-- Lookup in an association list; mirrors a Python `dict` read
(`d[k]` / `k in d` / `d.get(k)`). -/
def alistGet {κ α : Type} [DecidableEq κ] : List (κ × α) → κ → Option α
  | [], _ => none
  | (k, v) :: rest, key => if k = key then some v else alistGet rest key

/-- Python truthiness of an `Optional[str]`: `None` and `""` are falsy. -/
def optStrTruthy : Option String → Bool
  | none => false
  | some s => s != ""

/-- Python `s.lstrip("0")`. -/
def lstripZeros (s : String) : String := ⟨s.data.dropWhile (fun c => c = '0')⟩

/-! ### The Failure/Event model

Modelled from the spec: the Failure component (`keylime.failure`) is outside the
excerpted source; the spec describes a component-scoped, mergeable accumulator of
named events, each `{name, context, fatal}`, truthiness being "has at least one
event" and merging being concatenation. -/

/-- Modelled from the spec: the failure-report components used by this module. -/
inductive Component where
  | QUOTE_VALIDATION
  | PCR_VALIDATION
  | MEASURED_BOOT
  | IMA
deriving DecidableEq

/-- Modelled from the spec: the context payload of an event. Each constructor is
one literal dict/string shape appearing at an `add_event` call site in
`tpm_main.py`. -/
inductive EventContext where
  | str (s : String)
  | gotExpected (got expected : String)
  | ctxGotExpected (ctx got expected : String)
  | ctxGotExpectedList (ctx got : String) (expected : List String)
  | ctxData (ctx : String) (data : List Nat)
  | msgError (msg err : String)
  | msgData (msg data : String)
deriving DecidableEq

/-- Modelled from the spec: one named event of a Failure report. A full report
is a `List Event`; merging Failures is list concatenation.

`fatal` is the spec's fatal marker: the spec marks every event this module
records as fatal (PCR mismatches and missing PCRs as well as the
quote-validation short circuits, which the source comment calls
"irrecoverable"), and fatal events reject the attestation.

`recoverable` records the literal boolean passed as the third positional
argument of `Failure.add_event` — the recoverable marker of the `Failure`
collaborator, where `False` means irrecoverable. It is distinct from the fatal
axis: every `check_pcrs` call site passes `True` (the default here), while the
three short-circuit call sites of `check_quote` pass `False`. -/
structure Event where
  component : Component
  name : String
  context : EventContext
  fatal : Bool
  recoverable : Bool := true
deriving DecidableEq

/-! ### Reserved PCR indices -/

/-- Modelled from the spec: `config.TPM_DATA_PCR`, the reserved binding/data PCR
index, configured as 16. -/
def TPM_DATA_PCR : Nat := 16

/-- Modelled from the spec: `config.IMA_PCR`, the reserved IMA PCR index (10). -/
def IMA_PCR : Nat := 10

/-- Modelled from the spec: `config.MEASUREDBOOT_PCRS`, the fixed small set of
measured-boot PCR indices. -/
def MEASUREDBOOT_PCRS : List Nat := [0, 1, 2, 3, 4, 5, 6, 7, 14]

/-! ### Clock monotonicity checker (`Tpm.check_quote_timing`) -/

/-- TPM clock snapshot, as in `keylime.agentstates.TPMClockInfo`: all four
fields are non-negative integers extracted from the quote. -/
structure TPMClockInfo where
  clock : Nat
  resetcount : Nat
  restartcount : Nat
  safe : Nat
deriving DecidableEq

/-- Embedding of `Tpm.check_quote_timing`. The external extraction
`Tpm._tpm2_clock_info_from_quote` is an oracle input: `none` stands for the
empty dict it returns on extraction failure. Differences are computed in `Int`
as in Python. -/
def check_quote_timing (previous_clockinfo : TPMClockInfo)
    (extracted : Option TPMClockInfo) : Option String × Option TPMClockInfo :=
  match extracted with
  | none => (some "_tpm2_clock_info_from_quote failed ", none)
  | some tentative =>
    let resetdiff : Int := (tentative.resetcount : Int) - (previous_clockinfo.resetcount : Int)
    let restartdiff : Int := (tentative.restartcount : Int) - (previous_clockinfo.restartcount : Int)
    if resetdiff < 0 then
      (some "resetCount value decreased on TPM between two consecutive quotes", none)
    else if restartdiff < 0 then
      (some "restartCount value decreased on TPM between two consecutive quotes", none)
    else if tentative.safe ≠ 1 then
      (some "clock safe flag is disabled", none)
    else if resetdiff = 0 ∨ restartdiff = 0 then
      if (tentative.clock : Int) - (previous_clockinfo.clock : Int) ≤ 0 then
        (some "clock timestamp did issued by TPM did not increase between two consecutive quotes",
         none)
      else (none, some tentative)
    else (none, none)

/-! ### Digest/extend primitive (`Tpm.sim_extend`) -/

/-- A hash algorithm as consumed by `sim_extend` (the `keylime.common.algorithms.Hash`
collaborator): a one-way hash over byte strings and the algorithm's initial PCR
value. Bytes are modelled as `List Nat`. -/
structure HashAlg where
  hash : List Nat → List Nat
  get_start_hash : List Nat

/-- Python `s.encode("utf-8")` as a list of byte values. -/
def strToBytes (s : String) : List Nat := s.toUTF8.toList.map (fun b => b.toNat)

/-- Python `bytes.hex()`: two lowercase hex digits per byte. -/
def byteHex (b : Nat) : List Char := [Nat.digitChar (b / 16 % 16), Nat.digitChar (b % 16)]

/-- Python `bytes.hex()` over a byte list. -/
def bytesHex (l : List Nat) : String := ⟨l.flatMap byteHex⟩

/-- Embedding of `Tpm.sim_extend`: `H(H_start || H(data))` in hex. -/
def sim_extend (hashval_1 : String) (hash_alg : HashAlg) : String :=
  let hdata := hash_alg.hash (strToBytes hashval_1)
  let hext := hash_alg.hash (hash_alg.get_start_hash ++ hdata)
  bytesHex hext

/-! ### PCR policy evaluator (`Tpm.check_pcrs`)

The embedding follows the source body line by line. External collaborators are
oracle fields of `CheckPcrsArgs`:
- `mb_refstate_data` is the truthiness of the reference state returned by
  `measured_boot.get_policy`;
- `mb_pcrs_hashes` and `mb_parse_failure` are the per-algorithm PCR-hash map and
  the failure report produced by `parse_mb_bootlog` for a truthy measurement
  list (for a falsy list that function returns empty values, which the wrapper
  `parseMbResult` reproduces);
- `ima_events` is the report of the external IMA evaluator
  (`ima.process_measurement_list` via `Tpm.__check_ima`);
- `mb_policy_events` is the report of `measured_boot.evaluate_policy`.
The `tpm_policy` normalization (dropping `mask`, coercing keys to `int`) happens
before the steps verified here; `pcr_allowlist` is the normalized allowlist. -/

structure CheckPcrsArgs where
  pcr_allowlist : List (Nat × List String)
  pcrs_dict : List (Nat × String)
  data : Option String
  ima_measurement_list : Option String
  mb_measurement_list : Option String
  hash_alg : HashAlg
  mb_refstate_data : Bool
  mb_pcrs_hashes : List (String × Nat)
  mb_parse_failure : List Event
  ima_events : List Event
  mb_policy_events : List Event

/-- Output of `self.parse_mb_bootlog(mb_measurement_list, hash_alg)` as consumed
by `check_pcrs`: the PCR-hash map and the parse failure. For a falsy
measurement list `parse_mb_bootlog` returns `({}, None, {}, empty failure)`. -/
def parseMbResult (a : CheckPcrsArgs) : List (String × Nat) × List Event :=
  if optStrTruthy a.mb_measurement_list then (a.mb_pcrs_hashes, a.mb_parse_failure)
  else ([], [])

/-- Step "Validate data PCR" (`tpm_main.py` lines 334-361): returns the events
added and the indices added to `pcrs_in_quote`. -/
def dataPcrStep (a : CheckPcrsArgs) : List Event × List Nat :=
  match alistGet a.pcrs_dict TPM_DATA_PCR, a.data with
  | some quoted, some d =>
    let expectedval := sim_extend d a.hash_alg
    (if quoted ≠ expectedval then
       [{ component := .PCR_VALIDATION,
          name := "invalid_pcr_" ++ natRepr TPM_DATA_PCR,
          context := .gotExpected quoted expectedval,
          fatal := true }]
     else [],
     [TPM_DATA_PCR])
  | _, _ =>
    ([{ component := .PCR_VALIDATION,
        name := "missing_pcr_" ++ natRepr TPM_DATA_PCR,
        context := .str ("Data PCR " ++ natRepr TPM_DATA_PCR ++
          " is missing in quote, but is required"),
        fatal := true }],
     [])

/-- Step "Check for ima PCR" (lines 362-381). Note the source tests
`ima_measurement_list is None`, not truthiness. -/
def imaPcrStep (a : CheckPcrsArgs) : List Event × List Nat :=
  if (alistGet a.pcrs_dict IMA_PCR).isSome then
    (match a.ima_measurement_list with
     | none =>
       [{ component := .PCR_VALIDATION,
          name := "unused_pcr_" ++ natRepr IMA_PCR,
          context := .str "IMA PCR in policy, but no measurement list provided",
          fatal := true }]
     | some _ => a.ima_events,
     [IMA_PCR])
  else ([], [])

/-- Body of the measured-boot loop (lines 388-442) for one `pcr_num`, given the
`mb_pcrs_hashes` produced by the parse. Returns the events added to the main
failure, the events added to `mb_pcr_failure`, and the claimed indices. The
`continue` after the `unused_pcr` event skips the `pcrs_in_quote.add`. -/
def mbPcrOne (a : CheckPcrsArgs) (mb_pcrs_hashes : List (String × Nat)) (pcr_num : Nat) :
    List Event × List Event × List Nat :=
  if optStrTruthy a.mb_measurement_list = false then
    ([{ component := .PCR_VALIDATION,
        name := "unused_pcr_" ++ natRepr pcr_num,
        context := .str ("Measured Boot PCR " ++ natRepr pcr_num ++
          " in policy, but no measurement list provided"),
        fatal := true }],
     [], [])
  else
    let val_from_log_int := (alistGet mb_pcrs_hashes (natRepr pcr_num)).getD 0
    let val_from_log_hex := natHex val_from_log_int
    let val_from_log_hex_stripped := lstripZeros val_from_log_hex
    let pcrval := (alistGet a.pcrs_dict pcr_num).getD ""
    let pcrval_stripped := lstripZeros pcrval
    let mbEvents :=
      if val_from_log_hex_stripped ≠ pcrval_stripped then
        [{ component := .MEASURED_BOOT,
           name := "invalid_pcr_" ++ natRepr pcr_num,
           context := .ctxGotExpected "SHA256 boot event log PCR value does not match"
             pcrval val_from_log_hex,
           fatal := true }]
      else []
    let mainEvents :=
      match alistGet a.pcr_allowlist pcr_num with
      | some allowed =>
        if pcrval ∈ allowed then []
        else
          [{ component := .PCR_VALIDATION,
             name := "invalid_pcr_" ++ natRepr pcr_num,
             context := .ctxGotExpectedList "PCR value is not in allowlist" pcrval allowed,
             fatal := true }]
      | none => []
    (mainEvents, mbEvents, [pcr_num])

/-- The measured-boot PCR loop (lines 383-443): runs only if the parse produced
no failure, and its body only if a reference state was resolved. Iterates over
`set(config.MEASUREDBOOT_PCRS) & pcr_nums`. -/
def mbPcrStep (a : CheckPcrsArgs) : List Event × List Event × List Nat :=
  if (parseMbResult a).2 = [] ∧ a.mb_refstate_data then
    (((MEASUREDBOOT_PCRS.filter (fun i => (alistGet a.pcrs_dict i).isSome)).map
        (fun i => (mbPcrOne a (parseMbResult a).1 i).1)).flatten,
     ((MEASUREDBOOT_PCRS.filter (fun i => (alistGet a.pcrs_dict i).isSome)).map
        (fun i => (mbPcrOne a (parseMbResult a).1 i).2.1)).flatten,
     ((MEASUREDBOOT_PCRS.filter (fun i => (alistGet a.pcrs_dict i).isSome)).map
        (fun i => (mbPcrOne a (parseMbResult a).1 i).2.2)).flatten)
  else ([], [], [])

/-- Claimed indices (`pcrs_in_quote`) after the data, IMA and measured-boot
steps, before the residual loop. -/
def claimedAfterMb (a : CheckPcrsArgs) : List Nat :=
  (dataPcrStep a).2 ++ (imaPcrStep a).2 ++ (mbPcrStep a).2.2

/-- Body of the residual loop (lines 446-472) for one not-yet-claimed quoted
index: indices without an allowlist entry are only logged (and stay
unclaimed). -/
def residualOne (a : CheckPcrsArgs) (pcr_num : Nat) : List Event × List Nat :=
  match alistGet a.pcr_allowlist pcr_num with
  | none => ([], [])
  | some allowed =>
    let v := (alistGet a.pcrs_dict pcr_num).getD ""
    (if v ∈ allowed then []
     else
       [{ component := .PCR_VALIDATION,
          name := "invalid_pcr_" ++ natRepr pcr_num,
          context := .ctxGotExpectedList "PCR value is not in allowlist" v allowed,
          fatal := true }],
     [pcr_num])

/-- The residual loop over `pcr_nums - pcrs_in_quote` (the set difference is
computed once, before the loop body runs). -/
def residualStep (a : CheckPcrsArgs) (claimed : List Nat) : List Event × List Nat :=
  ((((a.pcrs_dict.map Prod.fst).filter (fun i => i ∉ claimed)).map
      (fun i => (residualOne a i).1)).flatten,
   (((a.pcrs_dict.map Prod.fst).filter (fun i => i ∉ claimed)).map
      (fun i => (residualOne a i).2)).flatten)

/-- Keys of the normalized allowlist. -/
def allowKeys (a : CheckPcrsArgs) : List Nat := a.pcr_allowlist.map Prod.fst

/-- Claimed indices after the residual loop. -/
def claimedFinal (a : CheckPcrsArgs) : List Nat :=
  claimedAfterMb a ++ (residualStep a (claimedAfterMb a)).2

/-- The set `missing = set(pcr_allowlist.keys()) - pcrs_in_quote` (line 474). -/
def missingPcrs (a : CheckPcrsArgs) : List Nat :=
  (allowKeys a).filter (fun i => i ∉ claimedFinal a)

/-- The final missing-PCRs event (lines 474-477). -/
def missingStep (a : CheckPcrsArgs) : List Event :=
  if missingPcrs a = [] then []
  else
    [{ component := .PCR_VALIDATION,
       name := "missing_pcrs",
       context := .ctxData "PCRs are missing in quote" (missingPcrs a),
       fatal := true }]

/-- The final measured-boot policy evaluation (lines 479-488), merged only when
the parse succeeded and a reference state was resolved. -/
def mbPolicyStep (a : CheckPcrsArgs) : List Event :=
  if (parseMbResult a).2 = [] ∧ a.mb_refstate_data then a.mb_policy_events else []

/-- Embedding of `Tpm.check_pcrs`: the merged failure report, in source order:
parse failure, data-PCR events, IMA events, measured-boot main-failure events,
`mb_pcr_failure` events, residual events, the missing-PCRs event, and the
measured-boot policy report. -/
def check_pcrs (a : CheckPcrsArgs) : List Event :=
  (parseMbResult a).2
    ++ (dataPcrStep a).1
    ++ (imaPcrStep a).1
    ++ (mbPcrStep a).1
    ++ (mbPcrStep a).2.1
    ++ (residualStep a (claimedAfterMb a)).1
    ++ missingStep a
    ++ mbPolicyStep a

/-! ### Quote verification orchestrator (`Tpm.check_quote`) -/

/-- Inputs of `check_quote`. `checkquote_pcrs`/`checkquote_err` is the oracle
result of `Tpm._tpm2_checkquote` (external signature verification; it returns
`({}, str(e))` on error and `(pcrs_dict, "")` on success); `extracted_clock` is
the oracle result of `Tpm._tpm2_clock_info_from_quote`; `pcr_args` carries the
remaining arguments through to `check_pcrs`, whose `pcrs_dict` and `hash_alg`
fields get overwritten by the orchestrator. -/
structure CheckQuoteArgs where
  hash_alg : Option HashAlg
  checkquote_pcrs : List (Nat × String)
  checkquote_err : String
  extracted_clock : Option TPMClockInfo
  previous_clockinfo : TPMClockInfo
  pcr_args : CheckPcrsArgs

/-- Embedding of `Tpm.check_quote` (lines 492-558): require a hash algorithm,
verify the quote, check the clock, then delegate to `check_pcrs`. Each
short-circuit returns a single fatal `QUOTE_VALIDATION` event; the source
passes `False` as `add_event`'s recoverable argument at all three call sites
(its own comment: "this failure is irrecoverable"), so the events carry
`fatal := true, recoverable := false`. -/
def check_quote (a : CheckQuoteArgs) : List Event :=
  match a.hash_alg with
  | none =>
    [{ component := .QUOTE_VALIDATION, name := "hash_alg_missing",
       context := .str "Hash algorithm cannot be empty",
       fatal := true, recoverable := false }]
  | some alg =>
    if a.checkquote_err ≠ "" then
      [{ component := .QUOTE_VALIDATION, name := "quote_validation",
         context := .msgError "Quote data validation" a.checkquote_err,
         fatal := true, recoverable := false }]
    else
      match (check_quote_timing a.previous_clockinfo a.extracted_clock).1 with
      | some clock_failure =>
        if clock_failure ≠ "" then
          [{ component := .QUOTE_VALIDATION, name := "quote_validation",
             context := .msgData "Validation of clockinfo from quote using tpm2-tools"
               clock_failure,
             fatal := true, recoverable := false }]
        else check_pcrs { a.pcr_args with pcrs_dict := a.checkquote_pcrs, hash_alg := alg }
      | none => check_pcrs { a.pcr_args with pcrs_dict := a.checkquote_pcrs, hash_alg := alg }

/-! ### Boot-aggregate computation (`Tpm.__add_boot_aggregate`) -/

/-- A value under `log["pcrs"][alg][index]`: the yaml decoder yields either a
(decimal) integer or some other scalar; formatting a non-integer with `:x`
raises, which the per-combination `try` swallows. -/
inductive LogVal where
  | int (n : Nat)
  | str (s : String)
deriving DecidableEq

/-- A `hashlib` hash class as used by `__add_boot_aggregate`: a digest size and
a streaming interface (`update` on a state, `hexdigest` of a state). The fresh
state `hashclass()` is modelled as `[]`. -/
structure HashSpec where
  digest_size : Nat
  update : List Nat → List Nat → List Nat
  hexdigest : List Nat → String

/-- Value of one hex digit, `none` for a non-hex character. -/
def hexDigitVal? (c : Char) : Option Nat :=
  if '0' ≤ c ∧ c ≤ '9' then some (c.toNat - 48)
  else if 'a' ≤ c ∧ c ≤ 'f' then some (c.toNat - 87)
  else if 'A' ≤ c ∧ c ≤ 'F' then some (c.toNat - 55)
  else none

/-- Python `bytes.fromhex`: pairs of hex digits; fails on odd length or a
non-hex character. -/
def hexPairsToBytes? : List Char → Option (List Nat)
  | [] => some []
  | [_] => none
  | a :: b :: rest => do
    let x ← hexDigitVal? a
    let y ← hexDigitVal? b
    let r ← hexPairsToBytes? rest
    pure ((16 * x + y) :: r)

/-- Python `f"{n:0{w}x}"` for a non-negative integer: lowercase hex, left
zero-padded to a minimum width `w`. -/
def padHex (w : Nat) (n : Nat) : List Char :=
  let d := natHexDigits n
  List.replicate (w - d.length) '0' ++ d

/-- The byte string `bytes.fromhex(f"{pcrstrg:0{h.digest_size*2}x}")` for one
log value; `none` when the formatting or conversion raises. -/
def pcrHexBytes (ds : Nat) : LogVal → Option (List Nat)
  | .int n => hexPairsToBytes? (padHex (2 * ds) n)
  | .str _ => none

/-- The bytes contributed by PCR index `i`: look up `log["pcrs"][alg][str(i)]`
and convert; `none` when the index is missing or the value malformed. -/
def pcrBytesAt (ds : Nat) (cells : List (String × LogVal)) (i : Nat) : Option (List Nat) :=
  (alistGet cells (natRepr i)).bind (pcrHexBytes ds)

/-- One `(hashalg, maxpcr)` combination of the `__add_boot_aggregate` loop: the
streaming hash of PCRs `0..maxpcr`, `none` when any iteration raises (the
`except: pass`). -/
def bootAggregate (hs : HashSpec) (cells : List (String × LogVal)) (maxpcr : Nat) :
    Option String :=
  ((List.range maxpcr).foldlM
      (fun h i => (pcrBytesAt hs.digest_size cells i).map (fun b => hs.update h b))
      ([] : List Nat)).map hs.hexdigest

/-- Embedding of `Tpm.__add_boot_aggregate`: for each algorithm in the log's
`pcrs` map, the `boot_aggregates` entry lists the aggregates of the
combinations that succeeded, for range sizes 8 and 10 in order; `getattr`
failure for an unsupported algorithm name makes every combination fail. -/
def add_boot_aggregate (hashlibReg : String → Option HashSpec)
    (pcrs : List (String × List (String × LogVal))) : List (String × List String) :=
  pcrs.map (fun entry =>
    (entry.1,
     match hashlibReg entry.1 with
     | none => []
     | some hs => [8, 10].filterMap (bootAggregate hs entry.2)))

/-! ### Event-log unescape pass (`Tpm.__unescape_eventlog`) -/

/-- Python `str.replace` specialized to a two-character pattern `[x, y]` and a
one-character replacement `[o]`: left-to-right, non-overlapping. -/
def replace2 (x y o : Char) : List Char → List Char
  | a :: b :: rest =>
    if a = x ∧ b = y then o :: replace2 x y o rest
    else a :: replace2 x y o (b :: rest)
  | l => l

/-- The `escaped_chars` table of `__unescape_eventlog`, as pairs
`(original, code)`: the escaped form is the backslash followed by the code
character (`("\0", "\\0")`, ..., `("\\", "\\\\")`). -/
def escaped_chars : List (Char × Char) :=
  [ (Char.ofNat 0, '0'), (Char.ofNat 7, 'a'), (Char.ofNat 8, 'b'), (Char.ofNat 9, 't'),
    (Char.ofNat 11, 'v'), (Char.ofNat 12, 'f'), (Char.ofNat 13, 'r'), (Char.ofNat 27, 'e'),
    (Char.ofNat 39, Char.ofNat 39), ('\\', '\\') ]

/-- The replacement loop `for orig, escaped in escaped_chars: data =
data.replace(escaped, orig)`. -/
def applyUnescapes (l : List Char) : List Char :=
  escaped_chars.foldl (fun d p => replace2 '\\' p.2 p.1 d) l

/-- Python `data.rstrip("\0")`. -/
def rstripNul (l : List Char) : List Char :=
  (l.reverse.dropWhile (fun c => c = Char.ofNat 0)).reverse

/-- The string case of `recursive_unescape`: strip surrounding double quotes,
run the replacement loop, strip trailing NULs; non-quoted strings pass through
unchanged. -/
def unescapeChars (l : List Char) : List Char :=
  if l.head? = some '"' ∧ l.getLast? = some '"' then
    rstripNul (applyUnescapes ((l.drop 1).dropLast))
  else l

/-- String wrapper of `unescapeChars`. -/
def unescapeStr (s : String) : String := ⟨unescapeChars s.data⟩

/-- The structured log document over which `recursive_unescape` recurses:
string leaves, dicts, lists, and any other scalar (left untouched). -/
inductive Doc where
  | str (s : String)
  | dict (entries : List (String × Doc))
  | list (items : List Doc)
  | other

mutual

/-- The `recursive_unescape` inner function: type-dispatching recursive descent
over the document. -/
def recursiveUnescape : Doc → Doc
  | .str s => .str (unescapeStr s)
  | .dict es => .dict (recursiveUnescapePairs es)
  | .list is => .list (recursiveUnescapeItems is)
  | .other => .other

/-- Descent over dict entries. -/
def recursiveUnescapePairs : List (String × Doc) → List (String × Doc)
  | [] => []
  | (k, v) :: rest => (k, recursiveUnescape v) :: recursiveUnescapePairs rest

/-- Descent over list items. -/
def recursiveUnescapeItems : List Doc → List Doc
  | [] => []
  | d :: rest => recursiveUnescape d :: recursiveUnescapeItems rest

end

/-- Embedding of `Tpm.__unescape_eventlog`: a no-op for tools versions 3.2, 4.0
and 4.2 (the escaping was introduced with the 5.4 event-log format), otherwise
the recursive unescape of the whole document. -/
def unescape_eventlog (tools_version : String) (log : Doc) : Doc :=
  if tools_version = "3.2" ∨ tools_version = "4.0" ∨ tools_version = "4.2" then log
  else recursiveUnescape log

/-- Modelled from the spec: the vendor (tpm2-tools ≥ 5.4) escaping that
`__unescape_eventlog` reverses — each special character becomes a backslash
followed by its code character, and the result is surrounded by double
quotes. -/
def escapeSpec (s : List Char) : List Char :=
  '"' :: ((s.flatMap (fun c =>
    match alistGet escaped_chars c with
    | some d => ['\\', d]
    | none => [c])) ++ ['"'])

/-- The escape-set characters (the `orig` column of `escaped_chars`). -/
def escapeSet : List Char := escaped_chars.map Prod.fst

/-! ### Injectivity of the decimal rendering -/

/-- Numeric value of a decimal digit string (inverse of `natDigits`). -/
def digitsVal (l : List Char) : Nat := l.foldl (fun a c => 10 * a + digitVal c) 0

theorem digitsVal_concat (xs : List Char) (c : Char) :
    digitsVal (xs ++ [c]) = 10 * digitsVal xs + digitVal c := by
  simp [digitsVal, List.foldl_append]

theorem digitVal_digitChar : ∀ d, d < 10 → digitVal (Nat.digitChar d) = d := by decide

theorem natDigitsAux_ten_val (fuel : Nat) :
    ∀ n, n < fuel → digitsVal (natDigitsAux 10 fuel n) = n := by
  induction fuel with
  | zero => intro n h; omega
  | succ fuel ih =>
    intro n h
    unfold natDigitsAux
    by_cases hlt : n < 10
    · simp only [if_pos hlt, digitsVal, List.foldl_cons, List.foldl_nil]
      rw [digitVal_digitChar n hlt]
      omega
    · have hdiv : n / 10 < fuel := by
        have hd := Nat.div_lt_self (show 0 < n by omega) (show 1 < 10 by omega)
        omega
      rw [if_neg hlt, digitsVal_concat, ih _ hdiv,
        digitVal_digitChar _ (Nat.mod_lt _ (by omega))]
      omega

theorem natRepr_injective {m n : Nat} (h : natRepr m = natRepr n) : m = n := by
  have hd : natDigits m = natDigits n := congrArg String.data h
  have h1 := natDigitsAux_ten_val (m + 1) m (by omega)
  have h2 := natDigitsAux_ten_val (n + 1) n (by omega)
  unfold natDigits at hd
  rw [← h1, ← h2, hd]

/-- Names built as a fixed prefix followed by a decimal index are injective in
the index. -/
theorem prefixed_natRepr_injective (p : String) {m n : Nat}
    (h : p ++ natRepr m = p ++ natRepr n) : m = n := by
  have hd := congrArg String.data h
  rw [String.data_append, String.data_append] at hd
  exact natRepr_injective (congrArg String.mk (List.append_cancel_left hd))

/-! ### Shape lemmas for the `check_pcrs` steps -/

theorem mem_dataPcrStep_events {a : CheckPcrsArgs} {e : Event}
    (he : e ∈ (dataPcrStep a).1) :
    e.component = .PCR_VALIDATION ∧ e.fatal = true ∧
      ((e.name = "invalid_pcr_" ++ natRepr TPM_DATA_PCR ∧ ∃ g x, e.context = .gotExpected g x) ∨
       (e.name = "missing_pcr_" ++ natRepr TPM_DATA_PCR ∧ ∃ s, e.context = .str s)) := by
  unfold dataPcrStep at he
  rcases hq : alistGet a.pcrs_dict TPM_DATA_PCR with _ | v <;>
    rcases hd : a.data with _ | d <;>
      rw [hq, hd] at he <;>
        [skip; skip; skip; split at he] <;> simp_all

theorem dataPcrStep_claims_sub {a : CheckPcrsArgs} {i : Nat} (hi : i ∈ (dataPcrStep a).2) :
    i = TPM_DATA_PCR := by
  unfold dataPcrStep at hi
  rcases hq : alistGet a.pcrs_dict TPM_DATA_PCR with _ | v <;>
    rcases hd : a.data with _ | d <;>
      rw [hq, hd] at hi <;> simp_all

theorem mem_imaPcrStep_events {a : CheckPcrsArgs} {e : Event}
    (he : e ∈ (imaPcrStep a).1) :
    e ∈ a.ima_events ∨
      (e.component = .PCR_VALIDATION ∧ e.fatal = true ∧
       e.name = "unused_pcr_" ++ natRepr IMA_PCR ∧ ∃ s, e.context = .str s) := by
  unfold imaPcrStep at he
  split at he
  · rcases hl : a.ima_measurement_list with _ | l <;> rw [hl] at he <;> simp_all
  · simp at he

theorem imaPcrStep_claims_sub {a : CheckPcrsArgs} {i : Nat} (hi : i ∈ (imaPcrStep a).2) :
    i = IMA_PCR := by
  unfold imaPcrStep at hi
  split at hi <;> simp_all

theorem mem_mbPcrOne_main_events {a : CheckPcrsArgs} {h : List (String × Nat)} {i : Nat}
    {e : Event} (he : e ∈ (mbPcrOne a h i).1) :
    e.component = .PCR_VALIDATION ∧ e.fatal = true ∧
      ((e.name = "unused_pcr_" ++ natRepr i ∧ ∃ s, e.context = .str s) ∨
       (e.name = "invalid_pcr_" ++ natRepr i ∧ ∃ c g l, e.context = .ctxGotExpectedList c g l)) := by
  unfold mbPcrOne at he
  by_cases hmb : optStrTruthy a.mb_measurement_list = false
  · rw [if_pos hmb] at he; simp_all
  · rw [if_neg hmb] at he
    simp only at he
    rcases hal : alistGet a.pcr_allowlist i with _ | allowed <;>
      rw [hal] at he <;> split at he <;> simp_all

theorem mem_mbPcrOne_mbfail_events {a : CheckPcrsArgs} {h : List (String × Nat)} {i : Nat}
    {e : Event} (he : e ∈ (mbPcrOne a h i).2.1) : e.component = .MEASURED_BOOT := by
  unfold mbPcrOne at he
  by_cases hmb : optStrTruthy a.mb_measurement_list = false
  · rw [if_pos hmb] at he; simp_all
  · rw [if_neg hmb] at he; simp_all

theorem mbPcrOne_claims_sub {a : CheckPcrsArgs} {h : List (String × Nat)} {i j : Nat}
    (hj : j ∈ (mbPcrOne a h i).2.2) : j = i := by
  unfold mbPcrOne at hj
  by_cases hmb : optStrTruthy a.mb_measurement_list = false
  · rw [if_pos hmb] at hj; simp_all
  · rw [if_neg hmb] at hj; simp_all

theorem mem_mbPcrStep_main_events {a : CheckPcrsArgs} {e : Event}
    (he : e ∈ (mbPcrStep a).1) :
    ∃ i ∈ MEASUREDBOOT_PCRS, e.component = .PCR_VALIDATION ∧ e.fatal = true ∧
      ((e.name = "unused_pcr_" ++ natRepr i ∧ ∃ s, e.context = .str s) ∨
       (e.name = "invalid_pcr_" ++ natRepr i ∧ ∃ c g l, e.context = .ctxGotExpectedList c g l)) := by
  unfold mbPcrStep at he
  split at he
  · simp only [List.mem_flatten, List.mem_map] at he
    obtain ⟨l, ⟨i, hi, hfi⟩, hel⟩ := he
    subst hfi
    exact ⟨i, (List.mem_filter.mp hi).1, mem_mbPcrOne_main_events hel⟩
  · simp at he

theorem mem_mbPcrStep_mbfail_events {a : CheckPcrsArgs} {e : Event}
    (he : e ∈ (mbPcrStep a).2.1) : e.component = .MEASURED_BOOT := by
  unfold mbPcrStep at he
  split at he
  · simp only [List.mem_flatten, List.mem_map] at he
    obtain ⟨l, ⟨i, _, hfi⟩, hel⟩ := he
    subst hfi
    exact mem_mbPcrOne_mbfail_events hel
  · simp at he

theorem mbPcrStep_claims_sub {a : CheckPcrsArgs} {j : Nat}
    (hj : j ∈ (mbPcrStep a).2.2) : j ∈ MEASUREDBOOT_PCRS := by
  unfold mbPcrStep at hj
  split at hj
  · simp only [List.mem_flatten, List.mem_map] at hj
    obtain ⟨l, ⟨i, hi, hfi⟩, hjl⟩ := hj
    subst hfi
    rw [mbPcrOne_claims_sub hjl]
    exact (List.mem_filter.mp hi).1
  · simp at hj

theorem mem_residualStep_events {a : CheckPcrsArgs} {cl : List Nat} {e : Event}
    (he : e ∈ (residualStep a cl).1) :
    ∃ i, i ∉ cl ∧ i ∈ a.pcrs_dict.map Prod.fst ∧ e.component = .PCR_VALIDATION ∧
      e.fatal = true ∧ e.name = "invalid_pcr_" ++ natRepr i ∧
      ∃ c g l, e.context = .ctxGotExpectedList c g l := by
  unfold residualStep at he
  simp only [List.mem_flatten, List.mem_map] at he
  obtain ⟨l, ⟨i, hi, hfi⟩, hel⟩ := he
  subst hfi
  obtain ⟨hmem, hncl⟩ := List.mem_filter.mp hi
  refine ⟨i, by simpa using hncl, hmem, ?_⟩
  unfold residualOne at hel
  rcases hal : alistGet a.pcr_allowlist i with _ | allowed <;>
    rw [hal] at hel <;> [simp_all; (split at hel <;> simp_all)]

theorem mem_missingStep_events {a : CheckPcrsArgs} {e : Event} (he : e ∈ missingStep a) :
    e.component = .PCR_VALIDATION ∧ e.fatal = true ∧ e.name = "missing_pcrs" ∧
      e.context = .ctxData "PCRs are missing in quote" (missingPcrs a) := by
  unfold missingStep at he
  split at he <;> simp_all

theorem alistGet_isSome_iff {κ α : Type} [DecidableEq κ] (l : List (κ × α)) (k : κ) :
    (alistGet l k).isSome ↔ k ∈ l.map Prod.fst := by
  induction l with
  | nil => simp [alistGet]
  | cons p rest ih =>
    by_cases hk : p.1 = k
    · subst hk; simp [alistGet]
    · simp only [alistGet, if_neg hk, List.map_cons, List.mem_cons, ih]
      exact ⟨Or.inr, fun h => h.elim (fun h => absurd h.symm hk) id⟩

theorem alistGet_eq_some_mem {κ α : Type} [DecidableEq κ] {l : List (κ × α)} {k : κ} {v : α}
    (h : alistGet l k = some v) : k ∈ l.map Prod.fst :=
  (alistGet_isSome_iff l k).mp (by simp [h])

theorem mem_parseMbResult_events {a : CheckPcrsArgs} {e : Event}
    (he : e ∈ (parseMbResult a).2) : e ∈ a.mb_parse_failure := by
  unfold parseMbResult at he
  split at he <;> simp_all

theorem mem_mbPolicyStep_events {a : CheckPcrsArgs} {e : Event}
    (he : e ∈ mbPolicyStep a) : e ∈ a.mb_policy_events := by
  unfold mbPolicyStep at he
  split at he <;> simp_all

theorem dataPcrStep_present_none {a : CheckPcrsArgs} {v : String}
    (hq : alistGet a.pcrs_dict TPM_DATA_PCR = some v) (hd : a.data = none) :
    dataPcrStep a =
      ([{ component := .PCR_VALIDATION,
          name := "missing_pcr_" ++ natRepr TPM_DATA_PCR,
          context := .str ("Data PCR " ++ natRepr TPM_DATA_PCR ++
            " is missing in quote, but is required"),
          fatal := true }], []) := by
  unfold dataPcrStep
  rw [hq, hd]

/-- Decomposition of `check_pcrs` membership into the eight segments. -/
theorem mem_check_pcrs_cases {a : CheckPcrsArgs} {e : Event} (he : e ∈ check_pcrs a) :
    e ∈ (parseMbResult a).2 ∨ e ∈ (dataPcrStep a).1 ∨ e ∈ (imaPcrStep a).1 ∨
    e ∈ (mbPcrStep a).1 ∨ e ∈ (mbPcrStep a).2.1 ∨
    e ∈ (residualStep a (claimedAfterMb a)).1 ∨ e ∈ missingStep a ∨ e ∈ mbPolicyStep a := by
  unfold check_pcrs at he
  simp only [List.mem_append] at he
  tauto

/-- Two prefixed names with different head characters are different, whatever
the suffixes. -/
theorem append_ne_of_head_ne {p q : String} {c1 c2 : Char} (s1 s2 : List Char)
    (hp : p.data = c1 :: s1) (hq : q.data = c2 :: s2) (hne : c1 ≠ c2) (r1 r2 : String) :
    p ++ r1 ≠ q ++ r2 := by
  intro h
  have hd := congrArg String.data h
  rw [String.data_append, String.data_append, hp, hq] at hd
  simp only [List.cons_append, List.cons.injEq] at hd
  exact hne hd.1

theorem dataPcrStep_present {a : CheckPcrsArgs} {v d : String}
    (hq : alistGet a.pcrs_dict TPM_DATA_PCR = some v) (hd : a.data = some d) :
    dataPcrStep a =
      (if v ≠ sim_extend d a.hash_alg then
         [{ component := .PCR_VALIDATION,
            name := "invalid_pcr_" ++ natRepr TPM_DATA_PCR,
            context := .gotExpected v (sim_extend d a.hash_alg),
            fatal := true }]
       else [],
       [TPM_DATA_PCR]) := by
  unfold dataPcrStep
  rw [hq, hd]

theorem dataPcrStep_claims_isSome {a : CheckPcrsArgs} {i : Nat} (hi : i ∈ (dataPcrStep a).2) :
    (alistGet a.pcrs_dict TPM_DATA_PCR).isSome := by
  unfold dataPcrStep at hi
  rcases hq : alistGet a.pcrs_dict TPM_DATA_PCR with _ | v <;>
    rcases hd : a.data with _ | d <;>
      rw [hq, hd] at hi <;> simp_all

theorem imaPcrStep_claims_isSome {a : CheckPcrsArgs} {i : Nat} (hi : i ∈ (imaPcrStep a).2) :
    (alistGet a.pcrs_dict IMA_PCR).isSome := by
  unfold imaPcrStep at hi
  split at hi <;> simp_all

theorem mbPcrStep_claims_isSome {a : CheckPcrsArgs} {j : Nat}
    (hj : j ∈ (mbPcrStep a).2.2) : (alistGet a.pcrs_dict j).isSome := by
  unfold mbPcrStep at hj
  split at hj
  · simp only [List.mem_flatten, List.mem_map] at hj
    obtain ⟨l, ⟨i, hi, hfi⟩, hjl⟩ := hj
    subst hfi
    rw [mbPcrOne_claims_sub hjl]
    simpa using (List.mem_filter.mp hi).2
  · simp at hj

theorem claimedAfterMb_subset_keys {a : CheckPcrsArgs} {i : Nat}
    (hi : i ∈ claimedAfterMb a) : i ∈ a.pcrs_dict.map Prod.fst := by
  unfold claimedAfterMb at hi
  rcases List.mem_append.mp hi with hi | hi
  · rcases List.mem_append.mp hi with hi | hi
    · rw [dataPcrStep_claims_sub hi]
      exact (alistGet_isSome_iff _ _).mp (dataPcrStep_claims_isSome hi)
    · rw [imaPcrStep_claims_sub hi]
      exact (alistGet_isSome_iff _ _).mp (imaPcrStep_claims_isSome hi)
  · exact (alistGet_isSome_iff _ _).mp (mbPcrStep_claims_isSome hi)

theorem mem_residualOne_claims {a : CheckPcrsArgs} {j i : Nat} :
    i ∈ (residualOne a j).2 ↔ i = j ∧ (alistGet a.pcr_allowlist j).isSome := by
  unfold residualOne
  rcases h : alistGet a.pcr_allowlist j with _ | al <;> simp [h]

theorem mem_residualStep_claims {a : CheckPcrsArgs} {cl : List Nat} {i : Nat} :
    i ∈ (residualStep a cl).2 ↔
      (i ∈ a.pcrs_dict.map Prod.fst ∧ i ∉ cl ∧ (alistGet a.pcr_allowlist i).isSome) := by
  unfold residualStep
  rw [List.mem_flatten]
  constructor
  · rintro ⟨l, hl, hil⟩
    obtain ⟨j, hj, rfl⟩ := List.mem_map.mp hl
    obtain ⟨rfl, hsome⟩ := mem_residualOne_claims.mp hil
    obtain ⟨hmem, hncl⟩ := List.mem_filter.mp hj
    exact ⟨hmem, by simpa using hncl, hsome⟩
  · rintro ⟨hmem, hncl, hsome⟩
    exact ⟨_, List.mem_map.mpr ⟨i, List.mem_filter.mpr ⟨hmem, by simpa using hncl⟩, rfl⟩,
      mem_residualOne_claims.mpr ⟨rfl, hsome⟩⟩

theorem mem_claimedFinal_iff_keys {a : CheckPcrsArgs} {i : Nat} (hallow : i ∈ allowKeys a) :
    i ∈ claimedFinal a ↔ i ∈ a.pcrs_dict.map Prod.fst := by
  constructor
  · intro h
    rcases List.mem_append.mp h with h | h
    · exact claimedAfterMb_subset_keys h
    · exact (mem_residualStep_claims.mp h).1
  · intro hk
    by_cases hcl : i ∈ claimedAfterMb a
    · exact List.mem_append.mpr (Or.inl hcl)
    · refine List.mem_append.mpr (Or.inr (mem_residualStep_claims.mpr ⟨hk, hcl, ?_⟩))
      exact (alistGet_isSome_iff _ _).mpr hallow

/-- The set of allowlist indices never claimed is exactly the set of allowlist
indices absent from the quoted PCR set. -/
theorem missingPcrs_eq_absent (a : CheckPcrsArgs) :
    missingPcrs a = (allowKeys a).filter (fun i => i ∉ a.pcrs_dict.map Prod.fst) := by
  unfold missingPcrs
  apply List.filter_congr
  intro i hi
  exact decide_eq_decide.mpr (not_congr (mem_claimedFinal_iff_keys hi))

theorem invalid_prefixed_ne_missing_pcrs (r : String) : "invalid_pcr_" ++ r ≠ "missing_pcrs" := by
  have h1 : ("invalid_pcr_".data) = 'i' :: "nvalid_pcr_".data := rfl
  have h2 : ("missing_pcrs".data) = 'm' :: "issing_pcrs".data := rfl
  intro h
  have hd := congrArg String.data h
  rw [String.data_append, h1, h2] at hd
  simp only [List.cons_append, List.cons.injEq] at hd
  exact absurd hd.1 (by decide)

theorem alistGet_filter_of_keeps {κ α : Type} [DecidableEq κ] (q : κ × α → Bool)
    (l : List (κ × α)) (k : κ) (h : ∀ p ∈ l, p.1 = k → q p = true) :
    alistGet (l.filter q) k = alistGet l k := by
  induction l with
  | nil => rfl
  | cons p rest ih =>
    obtain ⟨pk, pv⟩ := p
    rw [List.filter_cons]
    by_cases hq : q (pk, pv) = true
    · rw [if_pos hq]
      show (if pk = k then some pv else alistGet (rest.filter q) k) =
        (if pk = k then some pv else alistGet rest k)
      by_cases hk : pk = k
      · rw [if_pos hk, if_pos hk]
      · rw [if_neg hk, if_neg hk, ih (fun r hr => h r (List.mem_cons_of_mem _ hr))]
    · rw [if_neg hq]
      have hk : pk ≠ k := fun hc => hq (h (pk, pv) (List.mem_cons_self _ _) hc)
      have hrhs : alistGet ((pk, pv) :: rest) k = alistGet rest k := by
        show (if pk = k then some pv else alistGet rest k) = alistGet rest k
        rw [if_neg hk]
      rw [hrhs, ih (fun r hr => h r (List.mem_cons_of_mem _ hr))]

theorem alistGet_filter_ne {κ α : Type} [DecidableEq κ] (l : List (κ × α)) (bad k : κ)
    (h : k ≠ bad) : alistGet (l.filter (fun p => p.1 ≠ bad)) k = alistGet l k :=
  alistGet_filter_of_keeps _ l k (fun p _ hc => decide_eq_true (by rw [hc]; exact h))

theorem map_fst_filter_ne {κ α : Type} [DecidableEq κ] (l : List (κ × α)) (bad : κ) :
    (l.filter (fun p => p.1 ≠ bad)).map Prod.fst =
      (l.map Prod.fst).filter (fun k => k ≠ bad) := by
  induction l with
  | nil => rfl
  | cons p rest ih =>
    rw [List.filter_cons, List.map_cons, List.filter_cons]
    by_cases hp : p.1 = bad
    · rw [if_neg (by simp [hp]), if_neg (by simp [hp]), ih]
    · rw [if_pos (by simp [hp]), if_pos (by simp [hp]), List.map_cons, ih]

theorem flatten_map_filter_of_nil {α β : Type} (f : α → List β) (p : α → Bool) (l : List α)
    (h : ∀ x ∈ l, p x = false → f x = []) :
    ((l.filter p).map f).flatten = (l.map f).flatten := by
  induction l with
  | nil => rfl
  | cons x rest ih =>
    have ihr := ih (fun y hy => h y (List.mem_cons_of_mem _ hy))
    rw [List.filter_cons]
    by_cases hp : p x = true
    · rw [if_pos hp]
      simp only [List.map_cons, List.flatten_cons, ihr]
    · rw [if_neg hp]
      have hx := h x (List.mem_cons_self _ _) (by simpa using hp)
      simp only [List.map_cons, List.flatten_cons, hx, List.nil_append, ihr]

/-! ### Congruence lemmas: which fields each step reads -/

theorem dataPcrStep_congr {a b : CheckPcrsArgs}
    (h1 : alistGet a.pcrs_dict TPM_DATA_PCR = alistGet b.pcrs_dict TPM_DATA_PCR)
    (h2 : a.data = b.data) (h3 : a.hash_alg = b.hash_alg) :
    dataPcrStep a = dataPcrStep b := by
  unfold dataPcrStep
  rw [h1, h2, h3]

theorem imaPcrStep_congr {a b : CheckPcrsArgs}
    (h1 : alistGet a.pcrs_dict IMA_PCR = alistGet b.pcrs_dict IMA_PCR)
    (h2 : a.ima_measurement_list = b.ima_measurement_list)
    (h3 : a.ima_events = b.ima_events) :
    imaPcrStep a = imaPcrStep b := by
  unfold imaPcrStep
  rw [h1, h2, h3]

theorem parseMbResult_congr {a b : CheckPcrsArgs}
    (h1 : a.mb_measurement_list = b.mb_measurement_list)
    (h2 : a.mb_pcrs_hashes = b.mb_pcrs_hashes)
    (h3 : a.mb_parse_failure = b.mb_parse_failure) :
    parseMbResult a = parseMbResult b := by
  unfold parseMbResult
  rw [h1, h2, h3]

theorem mbPcrOne_congr {a b : CheckPcrsArgs} {h : List (String × Nat)} {j : Nat}
    (h1 : a.mb_measurement_list = b.mb_measurement_list)
    (h2 : alistGet a.pcrs_dict j = alistGet b.pcrs_dict j)
    (h3 : a.pcr_allowlist = b.pcr_allowlist) :
    mbPcrOne a h j = mbPcrOne b h j := by
  unfold mbPcrOne
  rw [h1, h2, h3]

theorem mbPcrStep_congr {a b : CheckPcrsArgs}
    (hp : parseMbResult a = parseMbResult b)
    (hr : a.mb_refstate_data = b.mb_refstate_data)
    (hl : a.mb_measurement_list = b.mb_measurement_list)
    (hal : a.pcr_allowlist = b.pcr_allowlist)
    (hj : ∀ j ∈ MEASUREDBOOT_PCRS, alistGet a.pcrs_dict j = alistGet b.pcrs_dict j) :
    mbPcrStep a = mbPcrStep b := by
  unfold mbPcrStep
  rw [hp, hr]
  have hfil : MEASUREDBOOT_PCRS.filter (fun i => (alistGet a.pcrs_dict i).isSome) =
      MEASUREDBOOT_PCRS.filter (fun i => (alistGet b.pcrs_dict i).isSome) :=
    List.filter_congr (fun i hi => by rw [hj i hi])
  rw [hfil]
  have hone : ∀ j ∈ MEASUREDBOOT_PCRS.filter (fun i => (alistGet b.pcrs_dict i).isSome),
      mbPcrOne a (parseMbResult b).1 j = mbPcrOne b (parseMbResult b).1 j := fun j hjf =>
    mbPcrOne_congr hl (hj j (List.mem_filter.mp hjf).1) hal
  rw [List.map_congr_left (fun j hjf => congrArg (fun t => t.1) (hone j hjf)),
    List.map_congr_left (fun j hjf => congrArg (fun t => t.2.1) (hone j hjf)),
    List.map_congr_left (fun j hjf => congrArg (fun t => t.2.2) (hone j hjf))]

theorem residualOne_congr {a b : CheckPcrsArgs} {j : Nat}
    (h1 : a.pcr_allowlist = b.pcr_allowlist)
    (h2 : alistGet a.pcrs_dict j = alistGet b.pcrs_dict j) :
    residualOne a j = residualOne b j := by
  unfold residualOne
  rw [h1, h2]

/-! ### Removal invariance for an unpoliced, unreserved quoted index -/

/-- One residual flatten-map over the erased key set equals the one over the
full key set, when the erased index contributes nothing. -/
theorem residual_list_invariant {β : Type} (g' g : Nat → List β) (keys cl : List Nat)
    (idx : Nat) (hg : ∀ j, j ≠ idx → g' j = g j) (hidx : g idx = []) :
    ((((keys.filter (fun k => k ≠ idx)).filter (fun i => i ∉ cl)).map g')).flatten =
      ((keys.filter (fun i => i ∉ cl)).map g).flatten := by
  have hswap : (keys.filter (fun k => k ≠ idx)).filter (fun i => i ∉ cl) =
      (keys.filter (fun i => i ∉ cl)).filter (fun k => k ≠ idx) := by
    rw [List.filter_filter, List.filter_filter]
    exact List.filter_congr (fun k _ => Bool.and_comm _ _)
  rw [hswap]
  have hmapc : ((keys.filter (fun i => i ∉ cl)).filter (fun k => k ≠ idx)).map g' =
      ((keys.filter (fun i => i ∉ cl)).filter (fun k => k ≠ idx)).map g :=
    List.map_congr_left (fun j hj => hg j (by simpa using (List.mem_filter.mp hj).2))
  rw [hmapc]
  refine flatten_map_filter_of_nil g _ _ (fun x _ hx => ?_)
  have hxi : x = idx := by simpa using hx
  rw [hxi, hidx]

/-- Removing from the quoted PCR set an index that is not the data PCR, not the
IMA PCR, not a measured-boot PCR, and has no allowlist entry, does not change
the failure report of `check_pcrs` at all: such an index produces no event. -/
theorem check_pcrs_erase_unpoliced (a : CheckPcrsArgs) (idx : Nat)
    (h16 : idx ≠ TPM_DATA_PCR) (h10 : idx ≠ IMA_PCR) (hmb : idx ∉ MEASUREDBOOT_PCRS)
    (hallow : alistGet a.pcr_allowlist idx = none) :
    check_pcrs { a with pcrs_dict := a.pcrs_dict.filter (fun p => p.1 ≠ idx) } =
      check_pcrs a := by
  have hpd : ({ a with pcrs_dict := a.pcrs_dict.filter (fun p => p.1 ≠ idx) }
      : CheckPcrsArgs).pcrs_dict = a.pcrs_dict.filter (fun p => p.1 ≠ idx) := rfl
  have hget : ∀ k, k ≠ idx →
      alistGet ({ a with pcrs_dict := a.pcrs_dict.filter (fun p => p.1 ≠ idx) }
        : CheckPcrsArgs).pcrs_dict k = alistGet a.pcrs_dict k := by
    intro k hk
    rw [hpd]
    exact alistGet_filter_ne a.pcrs_dict idx k hk
  have hparse : parseMbResult { a with pcrs_dict := a.pcrs_dict.filter (fun p => p.1 ≠ idx) } =
      parseMbResult a := parseMbResult_congr rfl rfl rfl
  have hdata : dataPcrStep { a with pcrs_dict := a.pcrs_dict.filter (fun p => p.1 ≠ idx) } =
      dataPcrStep a := dataPcrStep_congr (hget TPM_DATA_PCR (Ne.symm h16)) rfl rfl
  have hima : imaPcrStep { a with pcrs_dict := a.pcrs_dict.filter (fun p => p.1 ≠ idx) } =
      imaPcrStep a := imaPcrStep_congr (hget IMA_PCR (Ne.symm h10)) rfl rfl
  have hmbstep : mbPcrStep { a with pcrs_dict := a.pcrs_dict.filter (fun p => p.1 ≠ idx) } =
      mbPcrStep a :=
    mbPcrStep_congr hparse rfl rfl rfl (fun j hj => hget j (fun hc => hmb (hc ▸ hj)))
  have hclaimed : claimedAfterMb { a with pcrs_dict := a.pcrs_dict.filter (fun p => p.1 ≠ idx) } =
      claimedAfterMb a := by
    unfold claimedAfterMb
    rw [hdata, hima, hmbstep]
  have hresone : ∀ j, j ≠ idx →
      residualOne { a with pcrs_dict := a.pcrs_dict.filter (fun p => p.1 ≠ idx) } j =
        residualOne a j := fun j hj => residualOne_congr rfl (hget j hj)
  have hresidx : residualOne a idx = ([], []) := by
    unfold residualOne
    rw [hallow]
  have hres : ∀ cl, residualStep { a with pcrs_dict := a.pcrs_dict.filter (fun p => p.1 ≠ idx) } cl =
      residualStep a cl := by
    intro cl
    unfold residualStep
    rw [hpd, map_fst_filter_ne a.pcrs_dict idx]
    rw [Prod.mk.injEq]
    refine ⟨residual_list_invariant _ _ _ cl idx
        (fun j hj => congrArg (fun t => t.1) (hresone j hj))
        (congrArg (fun t => t.1) hresidx),
      residual_list_invariant _ _ _ cl idx
        (fun j hj => congrArg (fun t => t.2) (hresone j hj))
        (congrArg (fun t => t.2) hresidx)⟩
  have hmbpol : mbPolicyStep { a with pcrs_dict := a.pcrs_dict.filter (fun p => p.1 ≠ idx) } =
      mbPolicyStep a := by
    unfold mbPolicyStep
    rw [hparse]
  have hmiss : missingStep { a with pcrs_dict := a.pcrs_dict.filter (fun p => p.1 ≠ idx) } =
      missingStep a := by
    unfold missingStep missingPcrs claimedFinal allowKeys
    rw [hclaimed, hres]
  unfold check_pcrs
  rw [hparse, hdata, hima, hmbstep, hclaimed, hres, hmbpol, hmiss]

theorem filter_missing_nil (l : List Event)
    (h : ∀ e ∈ l, e.component ≠ Component.PCR_VALIDATION ∨ e.name ≠ "missing_pcrs") :
    l.filter (fun e =>
        e.component = Component.PCR_VALIDATION ∧ e.name = "missing_pcrs") = [] :=
  List.filter_eq_nil_iff.mpr fun e he => by
    simp only [decide_eq_true_eq]
    rintro ⟨h1, h2⟩
    rcases h e he with hc | hc
    · exact hc h1
    · exact hc h2

/-- The only `PCR_VALIDATION` events named `missing_pcrs` in the report are the
ones produced by the final missing-PCRs step. -/
theorem check_pcrs_filter_missing (a : CheckPcrsArgs)
    (hIma : ∀ e ∈ a.ima_events, e.component = .IMA)
    (hMbF : ∀ e ∈ a.mb_parse_failure, e.component = .MEASURED_BOOT)
    (hMbP : ∀ e ∈ a.mb_policy_events, e.component = .MEASURED_BOOT) :
    (check_pcrs a).filter (fun e =>
        e.component = Component.PCR_VALIDATION ∧ e.name = "missing_pcrs") =
      missingStep a := by
  have hmbnames : ∀ i ∈ MEASUREDBOOT_PCRS,
      "unused_pcr_" ++ natRepr i ≠ "missing_pcrs" ∧
      "invalid_pcr_" ++ natRepr i ≠ "missing_pcrs" := by decide
  have h1 := filter_missing_nil ((parseMbResult a).2) (fun e he =>
    Or.inl (by rw [hMbF e (mem_parseMbResult_events he)]; decide))
  have h2 := filter_missing_nil ((dataPcrStep a).1) (fun e he => by
    rcases mem_dataPcrStep_events he with ⟨_, _, ⟨hn, _⟩ | ⟨hn, _⟩⟩ <;>
      exact Or.inr (by rw [hn]; decide))
  have h3 := filter_missing_nil ((imaPcrStep a).1) (fun e he => by
    rcases mem_imaPcrStep_events he with he | ⟨_, _, hn, _⟩
    · exact Or.inl (by rw [hIma e he]; decide)
    · exact Or.inr (by rw [hn]; decide))
  have h4 := filter_missing_nil ((mbPcrStep a).1) (fun e he => by
    obtain ⟨i, hi, _, _, hshape⟩ := mem_mbPcrStep_main_events he
    rcases hshape with ⟨hn, _⟩ | ⟨hn, _⟩
    · exact Or.inr (by rw [hn]; exact (hmbnames i hi).1)
    · exact Or.inr (by rw [hn]; exact (hmbnames i hi).2))
  have h5 := filter_missing_nil ((mbPcrStep a).2.1) (fun e he =>
    Or.inl (by rw [mem_mbPcrStep_mbfail_events he]; decide))
  have h6 := filter_missing_nil ((residualStep a (claimedAfterMb a)).1) (fun e he => by
    obtain ⟨i, _, _, _, _, hn, _⟩ := mem_residualStep_events he
    exact Or.inr (by rw [hn]; exact invalid_prefixed_ne_missing_pcrs _))
  have h8 := filter_missing_nil (mbPolicyStep a) (fun e he =>
    Or.inl (by rw [hMbP e (mem_mbPolicyStep_events he)]; decide))
  have h7 : (missingStep a).filter (fun e =>
      e.component = Component.PCR_VALIDATION ∧ e.name = "missing_pcrs") = missingStep a := by
    unfold missingStep
    split
    · rfl
    · rw [List.filter_cons, if_pos (by simp), List.filter_nil]
  unfold check_pcrs
  simp only [List.filter_append]
  rw [h1, h2, h3, h4, h5, h6, h7, h8]
  simp

/-! ### Shared concrete fixtures for witnesses and counterexamples -/

/-- A concrete hash algorithm instance used by witnesses. -/
def toyHashAlg : HashAlg := ⟨fun _ => [], []⟩

/-- A concrete `CheckPcrsArgs` with everything empty, used as a base fixture. -/
def emptyPcrsArgs : CheckPcrsArgs :=
  { pcr_allowlist := [], pcrs_dict := [], data := none, ima_measurement_list := none,
    mb_measurement_list := none, hash_alg := toyHashAlg, mb_refstate_data := false,
    mb_pcrs_hashes := [], mb_parse_failure := [], ima_events := [], mb_policy_events := [] }

/-! ### Claims C2, C3, C4: the clock monotonicity checker -/

/-- C3: for every pair of previous and current ClockInfo where
`current.reset_count < previous.reset_count` or
`current.restart_count < previous.restart_count`, `check_quote_timing` rejects:
it returns a non-empty error string and no updated ClockInfo. -/
theorem C3_counter_decrease_rejects (prev cur : TPMClockInfo)
    (h : cur.resetcount < prev.resetcount ∨ cur.restartcount < prev.restartcount) :
    ∃ err, (check_quote_timing prev (some cur)).1 = some err ∧ err ≠ "" ∧
      (check_quote_timing prev (some cur)).2 = none := by
  simp only [check_quote_timing]
  split_ifs with h1 h2 h3 h4 h5 <;>
    first
      | exact ⟨_, rfl, by decide, rfl⟩
      | omega

/-- Witness for C3 at a concrete input: the reset counter decreases from 2 to
1, and the checker returns a non-empty error and no ClockInfo. -/
theorem C3_counter_decrease_rejects_witness :
    ∃ err, (check_quote_timing ⟨5, 2, 0, 1⟩ (some ⟨9, 1, 0, 1⟩)).1 = some err ∧ err ≠ "" ∧
      (check_quote_timing ⟨5, 2, 0, 1⟩ (some ⟨9, 1, 0, 1⟩)).2 = none :=
  C3_counter_decrease_rejects ⟨5, 2, 0, 1⟩ ⟨9, 1, 0, 1⟩ (by decide)

/-- C4: with extraction succeeded, safe flag 1 and both diffs zero,
`check_quote_timing` rejects when `current.clock ≤ previous.clock` and accepts
when `current.clock > previous.clock`, in the accepting case returning the
current ClockInfo for the caller to persist. -/
theorem C4_zero_diffs_strict_clock (prev cur : TPMClockInfo)
    (hreset : cur.resetcount = prev.resetcount)
    (hrestart : cur.restartcount = prev.restartcount)
    (hsafe : cur.safe = 1) :
    (cur.clock ≤ prev.clock →
      check_quote_timing prev (some cur) =
        (some "clock timestamp did issued by TPM did not increase between two consecutive quotes",
         none)) ∧
    (prev.clock < cur.clock →
      check_quote_timing prev (some cur) = (none, some cur)) := by
  simp only [check_quote_timing]
  constructor <;> intro hclock <;>
    (split_ifs with h1 h2 h3 h4 h5 <;> first | rfl | omega)

/-- Witness for C4 at concrete inputs: same counters and safe flag; a
non-advancing clock is rejected and an advancing clock is accepted with the
new ClockInfo returned. -/
theorem C4_zero_diffs_strict_clock_witness :
    (check_quote_timing ⟨5, 3, 2, 1⟩ (some ⟨5, 3, 2, 1⟩) =
      (some "clock timestamp did issued by TPM did not increase between two consecutive quotes",
       none)) ∧
    (check_quote_timing ⟨5, 3, 2, 1⟩ (some ⟨6, 3, 2, 1⟩) = (none, some ⟨6, 3, 2, 1⟩)) :=
  ⟨(C4_zero_diffs_strict_clock ⟨5, 3, 2, 1⟩ ⟨5, 3, 2, 1⟩ rfl rfl rfl).1 (by decide),
   (C4_zero_diffs_strict_clock ⟨5, 3, 2, 1⟩ ⟨6, 3, 2, 1⟩ rfl rfl rfl).2 (by decide)⟩

/-- Counterexample to C2 as stated: previous `(clock 5, reset 0, restart 0,
safe 1)`, current `(clock 5, reset 1, restart 0, safe 1)`. Exactly one of the
diffs is strictly positive (a reset occurred), nothing decreased and the safe
flag is 1, yet the checker does not accept: the strict-increase check is not
skipped and an error is returned. -/
theorem C2_counterexample :
    (check_quote_timing ⟨5, 0, 0, 1⟩ (some ⟨5, 1, 0, 1⟩)).1 ≠ none := by decide

/-- C2 amended: the strict-increase check is skipped only when BOTH
`reset_diff` and `restart_diff` are strictly positive (the source tests
`not (resetdiff and restartdiff)`); in that case the checker accepts
regardless of how the clocks compare, returning no updated ClockInfo. -/
theorem C2_skip_requires_both_diffs (prev cur : TPMClockInfo)
    (hreset : prev.resetcount < cur.resetcount)
    (hrestart : prev.restartcount < cur.restartcount)
    (hsafe : cur.safe = 1) :
    check_quote_timing prev (some cur) = (none, none) := by
  simp only [check_quote_timing]
  split_ifs with h1 h2 h3 h4 <;> first | rfl | omega

/-- Witness for the amended C2 at a concrete input: both counters increased
and the clock went backwards, yet the checker accepts. -/
theorem C2_skip_requires_both_diffs_witness :
    check_quote_timing ⟨5, 0, 0, 1⟩ (some ⟨3, 1, 1, 1⟩) = (none, none) :=
  C2_skip_requires_both_diffs ⟨5, 0, 0, 1⟩ ⟨3, 1, 1, 1⟩ (by decide) (by decide) (by decide)

/-! ### Claim C1: the orchestrator's short circuits -/

/-- Concrete `check_quote` input with no hash algorithm. -/
def qNoHashArgs : CheckQuoteArgs :=
  { hash_alg := none, checkquote_pcrs := [(16, "aa")], checkquote_err := "",
    extracted_clock := some ⟨6, 0, 0, 1⟩, previous_clockinfo := ⟨5, 0, 0, 1⟩,
    pcr_args := emptyPcrsArgs }

/-- C1: each of the three short-circuit conditions — absent hash algorithm,
quote-signature verification error, clock-check failure — makes `check_quote`
return immediately a report consisting of exactly one `QUOTE_VALIDATION`
event, without invoking the PCR evaluator, and the returned report contains an
event whose fatal flag is true. The source passes `False` as `add_event`'s
recoverable argument at these call sites ("this failure is irrecoverable"), so
the event is fatal and irrecoverable. -/
theorem C1_short_circuits_single_fatal_event (a : CheckQuoteArgs) :
    (a.hash_alg = none →
      check_quote a =
        [{ component := .QUOTE_VALIDATION, name := "hash_alg_missing",
           context := .str "Hash algorithm cannot be empty",
           fatal := true, recoverable := false }] ∧
      ∃ e ∈ check_quote a, e.fatal = true) ∧
    (a.hash_alg.isSome → a.checkquote_err ≠ "" →
      check_quote a =
        [{ component := .QUOTE_VALIDATION, name := "quote_validation",
           context := .msgError "Quote data validation" a.checkquote_err,
           fatal := true, recoverable := false }] ∧
      ∃ e ∈ check_quote a, e.fatal = true) ∧
    (∀ s, a.hash_alg.isSome → a.checkquote_err = "" →
      (check_quote_timing a.previous_clockinfo a.extracted_clock).1 = some s → s ≠ "" →
      check_quote a =
        [{ component := .QUOTE_VALIDATION, name := "quote_validation",
           context := .msgData "Validation of clockinfo from quote using tpm2-tools" s,
           fatal := true, recoverable := false }] ∧
      ∃ e ∈ check_quote a, e.fatal = true) := by
  refine ⟨fun hnone => ?_, fun hsome herr => ?_, fun s hsome herr hclock hs => ?_⟩
  · have heq : check_quote a =
        [{ component := .QUOTE_VALIDATION, name := "hash_alg_missing",
           context := .str "Hash algorithm cannot be empty",
           fatal := true, recoverable := false }] := by
      simp [check_quote, hnone]
    exact ⟨heq, by rw [heq]; exact ⟨_, List.mem_singleton.mpr rfl, rfl⟩⟩
  · obtain ⟨alg, halg⟩ := Option.isSome_iff_exists.mp hsome
    have heq : check_quote a =
        [{ component := .QUOTE_VALIDATION, name := "quote_validation",
           context := .msgError "Quote data validation" a.checkquote_err,
           fatal := true, recoverable := false }] := by
      simp [check_quote, halg, herr]
    exact ⟨heq, by rw [heq]; exact ⟨_, List.mem_singleton.mpr rfl, rfl⟩⟩
  · obtain ⟨alg, halg⟩ := Option.isSome_iff_exists.mp hsome
    have heq : check_quote a =
        [{ component := .QUOTE_VALIDATION, name := "quote_validation",
           context := .msgData "Validation of clockinfo from quote using tpm2-tools" s,
           fatal := true, recoverable := false }] := by
      simp [check_quote, halg, herr, hclock, hs]
    exact ⟨heq, by rw [heq]; exact ⟨_, List.mem_singleton.mpr rfl, rfl⟩⟩

/-- Witness for C1: all three short circuits exercised at concrete inputs (no
hash algorithm; a signature-verification error; a clock-extraction failure),
each yielding the single fatal `QUOTE_VALIDATION` event. -/
theorem C1_short_circuits_single_fatal_event_witness :
    (check_quote qNoHashArgs =
      [{ component := .QUOTE_VALIDATION, name := "hash_alg_missing",
         context := .str "Hash algorithm cannot be empty",
         fatal := true, recoverable := false }] ∧
      ∃ e ∈ check_quote qNoHashArgs, e.fatal = true) ∧
    (check_quote { qNoHashArgs with hash_alg := some toyHashAlg, checkquote_err := "sig error" } =
      [{ component := .QUOTE_VALIDATION, name := "quote_validation",
         context := .msgError "Quote data validation" "sig error",
         fatal := true, recoverable := false }] ∧
      ∃ e ∈ check_quote
        { qNoHashArgs with hash_alg := some toyHashAlg, checkquote_err := "sig error" },
        e.fatal = true) ∧
    (check_quote { qNoHashArgs with hash_alg := some toyHashAlg, extracted_clock := none } =
      [{ component := .QUOTE_VALIDATION, name := "quote_validation",
         context := .msgData "Validation of clockinfo from quote using tpm2-tools"
           "_tpm2_clock_info_from_quote failed ",
         fatal := true, recoverable := false }] ∧
      ∃ e ∈ check_quote
        { qNoHashArgs with hash_alg := some toyHashAlg, extracted_clock := none },
        e.fatal = true) :=
  ⟨(C1_short_circuits_single_fatal_event qNoHashArgs).1 rfl,
   (C1_short_circuits_single_fatal_event
      { qNoHashArgs with hash_alg := some toyHashAlg, checkquote_err := "sig error" }).2.1
     (by decide) (by decide),
   (C1_short_circuits_single_fatal_event
      { qNoHashArgs with hash_alg := some toyHashAlg, extracted_clock := none }).2.2
     "_tpm2_clock_info_from_quote failed " (by decide) (by decide) rfl (by decide)⟩

/-! ### Claim C10: bound data absent -/

/-- C10: when the bound data argument is None, a fatal `missing_pcr_16` event
is added even when PCR 16 is present in the quote; the quoted value is never
compared against `sim_extend` (no `PCR_VALIDATION` event carries a
`{got, expected}` context); and PCR 16 is not marked claimed before the
residual loop, so it falls through to residual allowlist evaluation. -/
theorem C10_data_none_missing_pcr (a : CheckPcrsArgs) {v : String}
    (hdata : a.data = none)
    (hpresent : alistGet a.pcrs_dict TPM_DATA_PCR = some v)
    (hIma : ∀ e ∈ a.ima_events, e.component = .IMA)
    (hMbF : ∀ e ∈ a.mb_parse_failure, e.component = .MEASURED_BOOT)
    (hMbP : ∀ e ∈ a.mb_policy_events, e.component = .MEASURED_BOOT) :
    ({ component := .PCR_VALIDATION,
       name := "missing_pcr_" ++ natRepr TPM_DATA_PCR,
       context := .str ("Data PCR " ++ natRepr TPM_DATA_PCR ++
         " is missing in quote, but is required"),
       fatal := true } : Event) ∈ check_pcrs a ∧
    (∀ e ∈ check_pcrs a, e.component = .PCR_VALIDATION →
      ∀ g x, e.context ≠ .gotExpected g x) ∧
    TPM_DATA_PCR ∉ claimedAfterMb a ∧
    TPM_DATA_PCR ∈ ((a.pcrs_dict.map Prod.fst).filter (fun i => i ∉ claimedAfterMb a)) := by
  have hdstep := dataPcrStep_present_none hpresent hdata
  have hnotclaimed : TPM_DATA_PCR ∉ claimedAfterMb a := by
    intro hmem
    unfold claimedAfterMb at hmem
    rw [hdstep] at hmem
    simp only [List.mem_append, List.not_mem_nil, false_or] at hmem
    rcases hmem with hmem | hmem
    · exact absurd (imaPcrStep_claims_sub hmem) (by decide)
    · exact absurd (mbPcrStep_claims_sub hmem) (by decide)
  refine ⟨?_, ?_, hnotclaimed, ?_⟩
  · unfold check_pcrs
    rw [hdstep]
    simp
  · intro e he hcomp g x
    rcases mem_check_pcrs_cases he with h | h | h | h | h | h | h | h
    · rw [hMbF e (mem_parseMbResult_events h)] at hcomp; exact absurd hcomp (by decide)
    · rw [hdstep] at h
      simp only [List.mem_singleton] at h
      subst h; simp
    · rcases mem_imaPcrStep_events h with h | ⟨_, _, _, s, hctx⟩
      · rw [hIma e h] at hcomp; exact absurd hcomp (by decide)
      · simp [hctx]
    · obtain ⟨i, _, _, _, hshape⟩ := mem_mbPcrStep_main_events h
      rcases hshape with ⟨_, s, hctx⟩ | ⟨_, c, g', l, hctx⟩ <;> simp [hctx]
    · rw [mem_mbPcrStep_mbfail_events h] at hcomp; exact absurd hcomp (by decide)
    · obtain ⟨i, _, _, _, _, _, c, g', l, hctx⟩ := mem_residualStep_events h
      simp [hctx]
    · obtain ⟨_, _, _, hctx⟩ := mem_missingStep_events h
      simp [hctx]
    · rw [hMbP e (mem_mbPolicyStep_events h)] at hcomp; exact absurd hcomp (by decide)
  · rw [List.mem_filter]
    exact ⟨alistGet_eq_some_mem hpresent, by simpa using hnotclaimed⟩

/-- Witness for C10 at a concrete input: PCR 16 quoted as "aa", data absent,
allowlist covering 16; the missing event is present, no `{got, expected}`
comparison happens, and 16 reaches the residual loop. -/
theorem C10_data_none_missing_pcr_witness :
    ({ component := .PCR_VALIDATION,
       name := "missing_pcr_" ++ natRepr TPM_DATA_PCR,
       context := .str ("Data PCR " ++ natRepr TPM_DATA_PCR ++
         " is missing in quote, but is required"),
       fatal := true } : Event) ∈
        check_pcrs { emptyPcrsArgs with pcrs_dict := [(16, "aa")] } ∧
    (∀ e ∈ check_pcrs { emptyPcrsArgs with pcrs_dict := [(16, "aa")] },
      e.component = .PCR_VALIDATION → ∀ g x, e.context ≠ .gotExpected g x) ∧
    TPM_DATA_PCR ∉ claimedAfterMb { emptyPcrsArgs with pcrs_dict := [(16, "aa")] } ∧
    TPM_DATA_PCR ∈ (((CheckPcrsArgs.pcrs_dict
        { emptyPcrsArgs with pcrs_dict := [(16, "aa")] }).map Prod.fst).filter
      (fun i => i ∉ claimedAfterMb { emptyPcrsArgs with pcrs_dict := [(16, "aa")] })) :=
  C10_data_none_missing_pcr { emptyPcrsArgs with pcrs_dict := [(16, "aa")] }
    rfl rfl (by decide) (by decide) (by decide)

/-! ### Claim C5: the binding/data PCR comparison -/

/-- C5: with the data PCR present in the quote and bound data supplied, the
quoted value is compared exactly against `sim_extend(data, hash_alg)`; a
mismatch adds the fatal `invalid_pcr_16` event with literal `got`/`expected`
fields holding the quoted and recomputed values; a match adds no
`PCR_VALIDATION` event named for that index; and the index is marked claimed in
both cases. -/
theorem C5_data_pcr_binding (a : CheckPcrsArgs) {v d : String}
    (hpresent : alistGet a.pcrs_dict TPM_DATA_PCR = some v)
    (hdata : a.data = some d)
    (hIma : ∀ e ∈ a.ima_events, e.component = .IMA)
    (hMbF : ∀ e ∈ a.mb_parse_failure, e.component = .MEASURED_BOOT)
    (hMbP : ∀ e ∈ a.mb_policy_events, e.component = .MEASURED_BOOT) :
    (v ≠ sim_extend d a.hash_alg →
      ({ component := .PCR_VALIDATION,
         name := "invalid_pcr_" ++ natRepr TPM_DATA_PCR,
         context := .gotExpected v (sim_extend d a.hash_alg),
         fatal := true } : Event) ∈ check_pcrs a) ∧
    (v = sim_extend d a.hash_alg →
      ∀ e ∈ check_pcrs a, e.component = .PCR_VALIDATION →
        e.name ≠ "invalid_pcr_" ++ natRepr TPM_DATA_PCR ∧
        e.name ≠ "missing_pcr_" ++ natRepr TPM_DATA_PCR) ∧
    TPM_DATA_PCR ∈ claimedAfterMb a := by
  have hdstep := dataPcrStep_present hpresent hdata
  have hclaimed : TPM_DATA_PCR ∈ claimedAfterMb a := by
    unfold claimedAfterMb
    rw [hdstep]
    simp
  refine ⟨fun hne => ?_, fun heq => ?_, hclaimed⟩
  · unfold check_pcrs
    rw [hdstep, if_pos hne]
    simp
  · intro e he hcomp
    rcases mem_check_pcrs_cases he with h | h | h | h | h | h | h | h
    · rw [hMbF e (mem_parseMbResult_events h)] at hcomp; exact absurd hcomp (by decide)
    · rw [hdstep, if_neg (by simpa using heq)] at h
      simp at h
    · rcases mem_imaPcrStep_events h with h | ⟨_, _, hn, _⟩
      · rw [hIma e h] at hcomp; exact absurd hcomp (by decide)
      · rw [hn]; exact ⟨by decide, by decide⟩
    · obtain ⟨i, hi, _, _, hshape⟩ := mem_mbPcrStep_main_events h
      have hmb : ∀ j ∈ MEASUREDBOOT_PCRS,
          ("unused_pcr_" ++ natRepr j ≠ "invalid_pcr_" ++ natRepr TPM_DATA_PCR ∧
           "unused_pcr_" ++ natRepr j ≠ "missing_pcr_" ++ natRepr TPM_DATA_PCR) ∧
          ("invalid_pcr_" ++ natRepr j ≠ "invalid_pcr_" ++ natRepr TPM_DATA_PCR ∧
           "invalid_pcr_" ++ natRepr j ≠ "missing_pcr_" ++ natRepr TPM_DATA_PCR) := by decide
      rcases hshape with ⟨hn, _⟩ | ⟨hn, _⟩
      · rw [hn]; exact (hmb i hi).1
      · rw [hn]; exact (hmb i hi).2
    · rw [mem_mbPcrStep_mbfail_events h] at hcomp; exact absurd hcomp (by decide)
    · obtain ⟨i, hncl, _, _, _, hn, _⟩ := mem_residualStep_events h
      have hi16 : i ≠ TPM_DATA_PCR := fun hii => hncl (hii ▸ hclaimed)
      rw [hn]
      constructor
      · intro hcontra
        exact hi16 (prefixed_natRepr_injective "invalid_pcr_" hcontra)
      · exact append_ne_of_head_ne "nvalid_pcr_".data "issing_pcr_".data
          rfl rfl (by decide) _ _
    · obtain ⟨_, _, hn, _⟩ := mem_missingStep_events h
      rw [hn]; exact ⟨by decide, by decide⟩
    · rw [hMbP e (mem_mbPolicyStep_events h)] at hcomp; exact absurd hcomp (by decide)

/-- Witness for C5 at concrete inputs, using a concrete hash algorithm for
which `sim_extend "x" toyHashAlg = ""`: the quoted value "aa" mismatches and
yields the fatal event with got/expected context; the quoted value "" matches
and yields no event named for PCR 16; 16 is claimed. -/
theorem C5_data_pcr_binding_witness :
    ({ component := .PCR_VALIDATION,
       name := "invalid_pcr_" ++ natRepr TPM_DATA_PCR,
       context := .gotExpected "aa" (sim_extend "x" toyHashAlg),
       fatal := true } : Event) ∈
        check_pcrs { emptyPcrsArgs with pcrs_dict := [(16, "aa")], data := some "x" } ∧
    (∀ e ∈ check_pcrs { emptyPcrsArgs with pcrs_dict := [(16, "")], data := some "x" },
      e.component = .PCR_VALIDATION →
        e.name ≠ "invalid_pcr_" ++ natRepr TPM_DATA_PCR ∧
        e.name ≠ "missing_pcr_" ++ natRepr TPM_DATA_PCR) ∧
    TPM_DATA_PCR ∈ claimedAfterMb { emptyPcrsArgs with pcrs_dict := [(16, "")], data := some "x" } :=
  ⟨(C5_data_pcr_binding { emptyPcrsArgs with pcrs_dict := [(16, "aa")], data := some "x" }
      rfl rfl (by decide) (by decide) (by decide)).1 (by decide),
   (C5_data_pcr_binding { emptyPcrsArgs with pcrs_dict := [(16, "")], data := some "x" }
      rfl rfl (by decide) (by decide) (by decide)).2.1 (by decide),
   (C5_data_pcr_binding { emptyPcrsArgs with pcrs_dict := [(16, "")], data := some "x" }
      rfl rfl (by decide) (by decide) (by decide)).2.2⟩

/-! ### Claim C7: measured-boot PCRs without a measurement list -/

/-- Concrete input for the C7 counterexample: PCR 0 (a measured-boot PCR) and
PCR 16 are quoted, bound data matches, log enrichment trivially succeeded (no
measurement list was sent) and no measured-boot reference state was resolved. -/
def mbNoRefArgs : CheckPcrsArgs :=
  { emptyPcrsArgs with pcrs_dict := [(0, "aa"), (16, "")], data := some "x" }

/-- Counterexample to C7 as stated: with no reference state resolved and no
measurement list, `check_pcrs` records NO `unused_pcr_0` event at all for the
quoted measured-boot PCR 0 (the whole loop body is guarded by
`if mb_refstate_data:`), and PCR 0 is not claimed either. -/
theorem C7_counterexample :
    (¬ ∃ e ∈ check_pcrs mbNoRefArgs, e.name = "unused_pcr_" ++ natRepr 0) ∧
    0 ∉ claimedAfterMb mbNoRefArgs := by decide

/-- C7 amended: the fatal `unused_pcr_<index>` event is recorded for a quoted
measured-boot PCR when log enrichment succeeded, a reference state WAS resolved
and the index lacks any measurement list; and the index is then NOT marked
claimed (the `continue` skips `pcrs_in_quote.add`), so it falls through to
residual-allowlist and missing-PCR processing. -/
theorem C7_mb_unused_pcr_not_claimed (a : CheckPcrsArgs) {idx : Nat}
    (href : a.mb_refstate_data = true)
    (hnolist : optStrTruthy a.mb_measurement_list = false)
    (hidx : idx ∈ MEASUREDBOOT_PCRS)
    (hquoted : (alistGet a.pcrs_dict idx).isSome) :
    ({ component := .PCR_VALIDATION,
       name := "unused_pcr_" ++ natRepr idx,
       context := .str ("Measured Boot PCR " ++ natRepr idx ++
         " in policy, but no measurement list provided"),
       fatal := true } : Event) ∈ check_pcrs a ∧
    idx ∉ claimedAfterMb a := by
  have hp1 : (parseMbResult a).1 = [] := by simp [parseMbResult, hnolist]
  have hp2 : (parseMbResult a).2 = [] := by simp [parseMbResult, hnolist]
  have hone : ∀ j, mbPcrOne a [] j =
      ([(⟨.PCR_VALIDATION, "unused_pcr_" ++ natRepr j,
          .str ("Measured Boot PCR " ++ natRepr j ++
            " in policy, but no measurement list provided"), true, true⟩ : Event)], [], []) := by
    intro j
    unfold mbPcrOne
    rw [if_pos hnolist]
  have hnot1016 : ∀ j ∈ MEASUREDBOOT_PCRS, j ≠ IMA_PCR ∧ j ≠ TPM_DATA_PCR := by decide
  have hm1 : (⟨.PCR_VALIDATION, "unused_pcr_" ++ natRepr idx,
      .str ("Measured Boot PCR " ++ natRepr idx ++
        " in policy, but no measurement list provided"), true, true⟩ : Event) ∈ (mbPcrStep a).1 := by
    unfold mbPcrStep
    rw [hp1, hp2, if_pos ⟨rfl, href⟩]
    simp only [List.mem_flatten, List.mem_map]
    refine ⟨_, ⟨idx, List.mem_filter.mpr ⟨hidx, by simpa using hquoted⟩, rfl⟩, ?_⟩
    rw [hone idx]
    simp
  constructor
  · unfold check_pcrs
    simp only [List.mem_append]
    tauto
  · intro hmem
    unfold claimedAfterMb at hmem
    rcases List.mem_append.mp hmem with hmem | hmem
    · rcases List.mem_append.mp hmem with hmem | hmem
      · exact (hnot1016 idx hidx).2 (dataPcrStep_claims_sub hmem)
      · exact (hnot1016 idx hidx).1 (imaPcrStep_claims_sub hmem)
    unfold mbPcrStep at hmem
    rw [hp1, hp2, if_pos ⟨rfl, href⟩] at hmem
    simp only [List.mem_flatten, List.mem_map] at hmem
    obtain ⟨l, ⟨j, _, hfj⟩, hjl⟩ := hmem
    subst hfj
    rw [hone j] at hjl
    simp at hjl

/-- Witness for the amended C7 at a concrete input: reference state resolved,
no measurement list, PCR 0 quoted: the fatal `unused_pcr_0` event is present
and 0 is not claimed before the residual loop. -/
theorem C7_mb_unused_pcr_not_claimed_witness :
    ({ component := .PCR_VALIDATION,
       name := "unused_pcr_" ++ natRepr 0,
       context := .str ("Measured Boot PCR " ++ natRepr 0 ++
         " in policy, but no measurement list provided"),
       fatal := true } : Event) ∈ check_pcrs { mbNoRefArgs with mb_refstate_data := true } ∧
    0 ∉ claimedAfterMb { mbNoRefArgs with mb_refstate_data := true } :=
  C7_mb_unused_pcr_not_claimed { mbNoRefArgs with mb_refstate_data := true }
    rfl (by decide) (by decide) (by decide)

/-! ### Claim C6: missing allowlist PCRs and unpoliced quoted PCRs -/

/-- Concrete input refuting the last part of C6: PCR 10 (the IMA PCR) is quoted
with no allowlist entry and no IMA measurement list. -/
def c6CtrArgs : CheckPcrsArgs :=
  { emptyPcrsArgs with pcrs_dict := [(10, "cc")], data := some "x" }

/-- Counterexample to C6 as stated: a quoted index (10) with no allowlist entry
nevertheless produces a fatal failure event named for it (`unused_pcr_10`),
because reserved indices are evaluated regardless of the allowlist. -/
theorem C6_counterexample :
    10 ∈ c6CtrArgs.pcrs_dict.map Prod.fst ∧
    alistGet c6CtrArgs.pcr_allowlist 10 = none ∧
    ∃ e ∈ check_pcrs c6CtrArgs, e.name = "unused_pcr_" ++ natRepr 10 ∧ e.fatal = true := by
  decide

/-- C6 amended: (1) the never-claimed allowlist indices are exactly the
allowlist indices absent from the quote (no allowlist index present in the
quote is ever listed as missing); (2) when that set is non-empty the report
contains exactly one `PCR_VALIDATION` event named `missing_pcrs`, fatal,
listing all such indices, and none otherwise; (3) a quoted index with no
allowlist entry AND distinct from the reserved data/IMA/measured-boot indices
produces no failure event at all: removing it from the quote leaves the report
unchanged. -/
theorem C6_missing_pcrs_exact (a : CheckPcrsArgs)
    (hIma : ∀ e ∈ a.ima_events, e.component = .IMA)
    (hMbF : ∀ e ∈ a.mb_parse_failure, e.component = .MEASURED_BOOT)
    (hMbP : ∀ e ∈ a.mb_policy_events, e.component = .MEASURED_BOOT) :
    missingPcrs a = (allowKeys a).filter (fun i => i ∉ a.pcrs_dict.map Prod.fst) ∧
    (missingPcrs a ≠ [] →
      (check_pcrs a).filter (fun e =>
          e.component = Component.PCR_VALIDATION ∧ e.name = "missing_pcrs") =
        [{ component := .PCR_VALIDATION, name := "missing_pcrs",
           context := .ctxData "PCRs are missing in quote" (missingPcrs a), fatal := true }]) ∧
    (missingPcrs a = [] →
      (check_pcrs a).filter (fun e =>
          e.component = Component.PCR_VALIDATION ∧ e.name = "missing_pcrs") = []) ∧
    (∀ idx, idx ≠ TPM_DATA_PCR → idx ≠ IMA_PCR → idx ∉ MEASUREDBOOT_PCRS →
      alistGet a.pcr_allowlist idx = none →
      check_pcrs { a with pcrs_dict := a.pcrs_dict.filter (fun p => p.1 ≠ idx) } =
        check_pcrs a) := by
  refine ⟨missingPcrs_eq_absent a, fun hne => ?_, fun heq => ?_,
    fun idx h1 h2 h3 h4 => check_pcrs_erase_unpoliced a idx h1 h2 h3 h4⟩
  · rw [check_pcrs_filter_missing a hIma hMbF hMbP]
    unfold missingStep
    rw [if_neg hne]
  · rw [check_pcrs_filter_missing a hIma hMbF hMbP]
    unfold missingStep
    rw [if_pos heq]

/-- Concrete input for the C6 witness, after the spec example: allowlist
`{0: ["aa"], 1: ["bb"]}`, quoted PCRs 0 and 9 (unpoliced, unreserved) and the
(matching) data PCR 16. -/
def c6Args : CheckPcrsArgs :=
  { emptyPcrsArgs with
    pcr_allowlist := [(0, ["aa"]), (1, ["bb"])],
    pcrs_dict := [(0, "aa"), (9, "cc"), (16, "")],
    data := some "x" }

/-- Witness for the amended C6: the missing set is `[1]`, exactly one fatal
`missing_pcrs` event lists it, and removing the unpoliced quoted PCR 9 leaves
the report unchanged. -/
theorem C6_missing_pcrs_exact_witness :
    missingPcrs c6Args = [1] ∧
    (check_pcrs c6Args).filter (fun e =>
        e.component = Component.PCR_VALIDATION ∧ e.name = "missing_pcrs") =
      [{ component := .PCR_VALIDATION, name := "missing_pcrs",
         context := .ctxData "PCRs are missing in quote" (missingPcrs c6Args), fatal := true }] ∧
    check_pcrs { c6Args with pcrs_dict := c6Args.pcrs_dict.filter (fun p => p.1 ≠ 9) } =
      check_pcrs c6Args :=
  ⟨by decide,
   (C6_missing_pcrs_exact c6Args (by decide) (by decide) (by decide)).2.1 (by decide),
   (C6_missing_pcrs_exact c6Args (by decide) (by decide) (by decide)).2.2.2 9
     (by decide) (by decide) (by decide) rfl⟩

/-! ### Claim C8: boot-aggregate computation -/

theorem foldlM_map_eq_foldl {α β γ : Type} (g : α → Option β) (upd : γ → β → γ) :
    ∀ (l : List α) (init : γ), (∀ i ∈ l, (g i).isSome) →
      l.foldlM (fun h i => (g i).map (upd h)) init =
        some ((l.filterMap g).foldl upd init) := by
  intro l
  induction l with
  | nil => intro init _; rfl
  | cons x rest ih =>
    intro init hall
    obtain ⟨b, hb⟩ := Option.isSome_iff_exists.mp (hall x (List.mem_cons_self _ _))
    rw [List.filterMap_cons, List.foldlM_cons, hb]
    simp only [Option.map_some', List.foldl_cons]
    show ((some (upd init b)) >>= fun s =>
      List.foldlM (fun h i => (g i).map (upd h)) s rest) = _
    rw [show ∀ (v : γ) (f : γ → Option γ), (some v) >>= f = f v from fun _ _ => rfl]
    exact ih (upd init b) (fun i hi => hall i (List.mem_cons_of_mem _ hi))

theorem foldlM_map_eq_none {α β γ : Type} (g : α → Option β) (upd : γ → β → γ) :
    ∀ (l : List α) (init : γ), (∃ i ∈ l, g i = none) →
      l.foldlM (fun h i => (g i).map (upd h)) init = none := by
  intro l
  induction l with
  | nil =>
    rintro init ⟨i, hi, _⟩
    cases hi
  | cons x rest ih =>
    rintro init ⟨i, hi, hg⟩
    rw [List.foldlM_cons]
    rcases List.mem_cons.mp hi with rfl | hmem
    · rw [hg]
      rfl
    · cases hgx : g x with
      | none => rfl
      | some b =>
        simp only [Option.map_some']
        show ((some (upd init b)) >>= fun s =>
          List.foldlM (fun h i => (g i).map (upd h)) s rest) = _
        rw [show ∀ (v : γ) (f : γ → Option γ), (some v) >>= f = f v from fun _ _ => rfl]
        exact ih _ ⟨i, hmem, hg⟩

/-- C8: for a supported algorithm whose log cells hold well-formed
decimal-integer values at all indices `0..maxpcr`, the boot aggregate equals
the digest obtained by a fresh hash state updated sequentially with the bytes
of each PCR value zero-padded to `2*digest_size` hex characters; a missing or
malformed value makes the whole combination come out as `none`, which the
`[8, 10]` `filterMap` silently omits; and `add_boot_aggregate` never errors: it
returns an entry for every algorithm of the log's `pcrs` map. -/
theorem C8_boot_aggregate (reg : String → Option HashSpec)
    (pcrs : List (String × List (String × LogVal)))
    (cells : List (String × LogVal)) (hs : HashSpec) (maxpcr : Nat) :
    ((∀ i ∈ List.range maxpcr, (pcrBytesAt hs.digest_size cells i).isSome) →
      bootAggregate hs cells maxpcr =
        some (hs.hexdigest
          (((List.range maxpcr).filterMap (pcrBytesAt hs.digest_size cells)).foldl
            hs.update []))) ∧
    ((∃ i ∈ List.range maxpcr, pcrBytesAt hs.digest_size cells i = none) →
      bootAggregate hs cells maxpcr = none) ∧
    ((add_boot_aggregate reg pcrs).map Prod.fst = pcrs.map Prod.fst) ∧
    (∀ alg, (alg, cells) ∈ pcrs → reg alg = some hs →
      (alg, [8, 10].filterMap (bootAggregate hs cells)) ∈ add_boot_aggregate reg pcrs) := by
  refine ⟨fun hall => ?_, fun hnone => ?_, ?_, fun alg hmem hreg => ?_⟩
  · unfold bootAggregate
    rw [foldlM_map_eq_foldl (pcrBytesAt hs.digest_size cells) hs.update
      (List.range maxpcr) [] hall]
    rfl
  · unfold bootAggregate
    rw [foldlM_map_eq_none (pcrBytesAt hs.digest_size cells) hs.update
      (List.range maxpcr) [] hnone]
    rfl
  · unfold add_boot_aggregate
    rw [List.map_map]
    rfl
  · unfold add_boot_aggregate
    refine List.mem_map.mpr ⟨(alg, cells), hmem, ?_⟩
    rw [hreg]

/-- A concrete streaming hash for the C8 witness: state concatenation with a
hex rendering as digest. -/
def toyHashSpec : HashSpec :=
  { digest_size := 1, update := fun st b => st ++ b, hexdigest := bytesHex }

/-- Concrete log cells for the C8 witness: decimal-integer values at indices
0..9. -/
def toyCells : List (String × LogVal) :=
  [("0", .int 0), ("1", .int 1), ("2", .int 2), ("3", .int 3), ("4", .int 4),
   ("5", .int 5), ("6", .int 6), ("7", .int 7), ("8", .int 8), ("9", .int 9)]

/-- Concrete cells with PCR 3 malformed (a string instead of an integer). -/
def toyCellsBad : List (String × LogVal) :=
  [("0", .int 0), ("1", .int 1), ("2", .int 2), ("3", .str "oops"), ("4", .int 4),
   ("5", .int 5), ("6", .int 6), ("7", .int 7)]

/-- Witness for C8 at concrete inputs: the 8-PCR aggregate over well-formed
cells equals the sequential digest, while a malformed value at index 3 makes
the combination come out as `none`; the aggregate map keeps one entry per
algorithm. -/
theorem C8_boot_aggregate_witness :
    (bootAggregate toyHashSpec toyCells 8 =
      some (toyHashSpec.hexdigest
        (((List.range 8).filterMap (pcrBytesAt toyHashSpec.digest_size toyCells)).foldl
          toyHashSpec.update []))) ∧
    (bootAggregate toyHashSpec toyCellsBad 8 = none) ∧
    ((add_boot_aggregate (fun s => if s = "sha256" then some toyHashSpec else none)
        [("sha256", toyCells)]).map Prod.fst = [("sha256", toyCells)].map Prod.fst) :=
  ⟨(C8_boot_aggregate (fun s => if s = "sha256" then some toyHashSpec else none)
      [("sha256", toyCells)] toyCells toyHashSpec 8).1 (by decide),
   (C8_boot_aggregate (fun s => if s = "sha256" then some toyHashSpec else none)
      [("sha256", toyCellsBad)] toyCellsBad toyHashSpec 8).2.1 ⟨3, by decide, by decide⟩,
   (C8_boot_aggregate (fun s => if s = "sha256" then some toyHashSpec else none)
      [("sha256", toyCells)] toyCells toyHashSpec 8).2.2.1⟩

/-! ### Claim C9: the unescape pass -/

/-- The escape code of a character (the second column of `escaped_chars`). -/
def codeOf (c : Char) : Char := (alistGet escaped_chars c).getD c

/-- The partially-unescaped form of a character after the passes for the
characters of `H` have run: already-handled characters stand for themselves,
the rest still carry their two-character escape. -/
def stageMap (H : List Char) (c : Char) : List Char :=
  if c ∈ H then [c] else ['\\', codeOf c]

theorem flatten_map_singleton : ∀ s : List Char, (s.map (fun c => [c])).flatten = s := by
  intro s
  induction s with
  | nil => rfl
  | cons c rest ih => simp [ih]

theorem rstripNul_eq_self {l : List Char} (h : l.getLast? ≠ some (Char.ofNat 0)) :
    rstripNul l = l := by
  unfold rstripNul
  rcases hrev : l.reverse with _ | ⟨c, rest⟩
  · rw [List.reverse_eq_nil_iff.mp hrev]
    rfl
  · have hc : c ≠ Char.ofNat 0 := by
      intro hcc
      apply h
      rw [← List.head?_reverse, hrev, hcc]
      rfl
    rw [List.dropWhile_cons, if_neg (by simp [hc]), ← hrev, List.reverse_reverse]

/-- Scanning `replace2` through a segment that cannot host a match: the
segment contains no `y`, and (unless `x = y`, in which case a cross-boundary
match would need `y` inside the segment) the continuation does not start
with `y`. -/
theorem replace2_append_skip (x y o : Char) :
    ∀ (seg t : List Char), y ∉ seg →
      (x = y ∨ ∀ c, t.head? = some c → c ≠ y) →
      replace2 x y o (seg ++ t) = seg ++ replace2 x y o t := by
  intro seg
  induction seg with
  | nil => intro t _ _; rfl
  | cons c seg' ih =>
    intro t hy ht
    have hcy : c ≠ y := fun hc => hy (hc ▸ List.mem_cons_self _ _)
    have hy' : y ∉ seg' := fun hm => hy (List.mem_cons_of_mem _ hm)
    rcases hseg' : seg' with _ | ⟨b, seg''⟩
    · rcases htc : t with _ | ⟨tb, t'⟩
      · rfl
      · have hneg : ¬(c = x ∧ tb = y) := by
          rintro ⟨hcx, hty⟩
          rcases ht with hxy | hth
          · exact hcy (hcx.trans hxy)
          · exact hth tb (by rw [htc]; rfl) hty
        show (if c = x ∧ tb = y then o :: replace2 x y o t'
          else c :: replace2 x y o (tb :: t')) = c :: replace2 x y o (tb :: t')
        rw [if_neg hneg]
    · subst hseg'
      have hby : b ≠ y := fun hb => hy' (hb ▸ List.mem_cons_self _ _)
      have hneg : ¬(c = x ∧ b = y) := fun hp => hby hp.2
      show (if c = x ∧ b = y then o :: replace2 x y o (seg'' ++ t)
        else c :: replace2 x y o (b :: (seg'' ++ t))) =
        c :: ((b :: seg'') ++ replace2 x y o t)
      rw [if_neg hneg]
      have := ih t hy' ht
      rw [show b :: (seg'' ++ t) = (b :: seg'') ++ t from rfl, this]

theorem flatten_head_ne (y : Char) :
    ∀ (segs : List (List Char)),
      (∀ s ∈ segs, s ≠ [] ∧ ∀ c, s.head? = some c → c ≠ y) →
      ∀ c, (segs.flatten).head? = some c → c ≠ y := by
  intro segs
  induction segs with
  | nil => intro _ c hc; cases hc
  | cons s rest ih =>
    intro h c hc
    obtain ⟨hne, hhead⟩ := h s (List.mem_cons_self _ _)
    rcases hs : s with _ | ⟨a, s'⟩
    · exact absurd hs hne
    · subst hs
      rw [List.flatten_cons, List.cons_append] at hc
      simp only [List.head?_cons, Option.some.injEq] at hc
      exact hc ▸ hhead a rfl

/-- One `replace2` pass over a flattened list of segments, when every segment
is either exactly the pattern or cannot take part in a match: the pass maps
pattern segments to the replacement and leaves the rest unchanged. -/
theorem replace2_concat_segments (x y o : Char) :
    ∀ (segs : List (List Char)),
      (∀ s ∈ segs, s = [x, y] ∨ (s ≠ [] ∧ y ∉ s)) →
      replace2 x y o segs.flatten =
        (segs.map (fun s => if s = [x, y] then [o] else s)).flatten := by
  intro segs
  induction segs with
  | nil => intro _; rfl
  | cons s rest ih =>
    intro h
    have hrest := fun s' hs' => h s' (List.mem_cons_of_mem _ hs')
    have hihr := ih hrest
    rcases h s (List.mem_cons_self _ _) with hp | ⟨hne, hy⟩
    · subst hp
      rw [List.flatten_cons, List.map_cons, if_pos rfl, List.flatten_cons]
      show replace2 x y o ([x, y] ++ rest.flatten) = [o] ++ (rest.map _).flatten
      show (if x = x ∧ y = y then o :: replace2 x y o rest.flatten
        else x :: replace2 x y o (y :: rest.flatten)) = [o] ++ (rest.map _).flatten
      rw [if_pos ⟨rfl, rfl⟩, hihr]
      rfl
    · rw [List.flatten_cons, List.map_cons, if_neg (by
        rintro rfl
        exact hy (List.mem_cons_of_mem _ (List.mem_cons_self _ _))), List.flatten_cons]
      have hskip : replace2 x y o (s ++ rest.flatten) = s ++ replace2 x y o rest.flatten := by
        apply replace2_append_skip x y o s rest.flatten hy
        by_cases hxy : x = y
        · exact Or.inl hxy
        · refine Or.inr (flatten_head_ne y rest (fun s' hs' => ?_))
          rcases hrest s' hs' with hp' | ⟨hne', hy'⟩
          · subst hp'
            exact ⟨by simp, fun c hc => by
              simp only [List.head?_cons, Option.some.injEq] at hc
              exact hc ▸ hxy⟩
          · exact ⟨hne', fun c hc => fun hcy => hy' (hcy ▸ (List.mem_of_mem_head? hc))⟩
      rw [hskip, hihr]

/-- The side conditions of each unescape pass, stated over the position of the
pass in the concrete `escaped_chars` table and checked by computation:
the code column matches, the original is not handled earlier, no
earlier-handled original equals the current code, and any later unhandled
original (other than the current one) has a different code, the current code
then not being the backslash. -/
theorem pass_facts_aux : ∀ k, k < escaped_chars.length →
    (codeOf (escaped_chars.getD k ('A', 'A')).1 = (escaped_chars.getD k ('A', 'A')).2 ∧
     (escaped_chars.getD k ('A', 'A')).1 ∉ (escaped_chars.take k).map Prod.fst ∧
     (∀ c ∈ escapeSet, c ∈ (escaped_chars.take k).map Prod.fst →
        c ≠ (escaped_chars.getD k ('A', 'A')).2) ∧
     (∀ c ∈ escapeSet, c ∉ (escaped_chars.take k).map Prod.fst →
        c ≠ (escaped_chars.getD k ('A', 'A')).1 →
        (codeOf c ≠ (escaped_chars.getD k ('A', 'A')).2 ∧
         (escaped_chars.getD k ('A', 'A')).2 ≠ '\\'))) := by decide

theorem pass_facts (pre post' : List (Char × Char)) (o d : Char)
    (heq : escaped_chars = pre ++ (o, d) :: post') :
    codeOf o = d ∧ o ∉ pre.map Prod.fst ∧
    (∀ c ∈ escapeSet, c ∈ pre.map Prod.fst → c ≠ d) ∧
    (∀ c ∈ escapeSet, c ∉ pre.map Prod.fst → c ≠ o → (codeOf c ≠ d ∧ d ≠ '\\')) := by
  have hk : pre.length < escaped_chars.length := by
    rw [heq, List.length_append, List.length_cons]
    omega
  have hpre : escaped_chars.take pre.length = pre := by
    rw [heq]
    exact List.take_left pre ((o, d) :: post')
  have hod : escaped_chars.getD pre.length ('A', 'A') = (o, d) := by
    rw [heq, List.getD_append_right pre ((o, d) :: post') ('A', 'A') pre.length (Nat.le_refl _)]
    simp
  have hfacts := pass_facts_aux pre.length hk
  rw [hpre, hod] at hfacts
  exact hfacts

theorem stage_seg_cond (pre post' : List (Char × Char)) (o d : Char)
    (heq : escaped_chars = pre ++ (o, d) :: post') (c : Char) (hcset : c ∈ escapeSet) :
    stageMap (pre.map Prod.fst) c = ['\\', d] ∨
      (stageMap (pre.map Prod.fst) c ≠ [] ∧ d ∉ stageMap (pre.map Prod.fst) c) := by
  obtain ⟨hcode, hoH, hF1, hF2⟩ := pass_facts pre post' o d heq
  by_cases hco : c = o
  · subst hco
    left
    simp [stageMap, hoH, hcode]
  · by_cases hcH : c ∈ pre.map Prod.fst
    · right
      simp only [stageMap, if_pos hcH]
      exact ⟨by simp, by simpa using Ne.symm (hF1 c hcset hcH)⟩
    · right
      obtain ⟨hcd, hdb⟩ := hF2 c hcset hcH hco
      simp only [stageMap, if_neg hcH]
      refine ⟨by simp, ?_⟩
      simp only [List.mem_cons, List.not_mem_nil, or_false]
      rintro (hdb' | hcd')
      · exact hdb hdb'
      · exact hcd hcd'.symm

theorem stage_step_char (pre post' : List (Char × Char)) (o d : Char)
    (heq : escaped_chars = pre ++ (o, d) :: post') (c : Char) (hcset : c ∈ escapeSet) :
    (if stageMap (pre.map Prod.fst) c = ['\\', d] then [o]
     else stageMap (pre.map Prod.fst) c) =
      stageMap ((pre ++ [(o, d)]).map Prod.fst) c := by
  obtain ⟨hcode, hoH, hF1, hF2⟩ := pass_facts pre post' o d heq
  by_cases hco : c = o
  · subst hco
    have hl : stageMap (pre.map Prod.fst) c = ['\\', d] := by
      simp [stageMap, hoH, hcode]
    rw [hl, if_pos rfl]
    have hmem : c ∈ (pre ++ [(c, d)]).map Prod.fst := by simp
    simp [stageMap, hmem]
  · by_cases hcH : c ∈ pre.map Prod.fst
    · have hl : stageMap (pre.map Prod.fst) c = [c] := by simp [stageMap, hcH]
      rw [hl, if_neg (by simp)]
      have hmem : c ∈ (pre ++ [(o, d)]).map Prod.fst := by simp [hcH]
      unfold stageMap
      rw [if_pos hmem]
    · obtain ⟨hcd, _⟩ := hF2 c hcset hcH hco
      have hl : stageMap (pre.map Prod.fst) c = ['\\', codeOf c] := by
        simp [stageMap, hcH]
      rw [hl, if_neg (by simp [hcd])]
      have hmem : c ∉ (pre ++ [(o, d)]).map Prod.fst := by simp [hcH, hco]
      unfold stageMap
      rw [if_neg hmem]

/-- The replacement loop, started after the passes of `pre` already ran over
the escaped text, recovers the original string. -/
theorem unescape_stages :
    ∀ (post pre : List (Char × Char)), escaped_chars = pre ++ post →
      ∀ s : List Char, (∀ c ∈ s, c ∈ escapeSet) →
        post.foldl (fun dta p => replace2 '\\' p.2 p.1 dta)
            ((s.map (stageMap (pre.map Prod.fst))).flatten) = s := by
  intro post
  induction post with
  | nil =>
    intro pre heq s hset
    rw [List.foldl_nil]
    have hpre : pre = escaped_chars := by rw [heq, List.append_nil]
    have hmap : s.map (stageMap (pre.map Prod.fst)) = s.map (fun c => [c]) :=
      List.map_congr_left (fun c hc => by
        have hcH : c ∈ pre.map Prod.fst := by
          rw [hpre]
          exact hset c hc
        simp [stageMap, hcH])
    rw [hmap, flatten_map_singleton]
  | cons p post' ih =>
    intro pre heq s hset
    obtain ⟨o, d⟩ := p
    rw [List.foldl_cons]
    have hstep : replace2 '\\' d o ((s.map (stageMap (pre.map Prod.fst))).flatten) =
        (s.map (stageMap ((pre ++ [(o, d)]).map Prod.fst))).flatten := by
      rw [replace2_concat_segments '\\' d o (s.map (stageMap (pre.map Prod.fst)))
        (fun seg hseg => by
          obtain ⟨c, hc, rfl⟩ := List.mem_map.mp hseg
          exact stage_seg_cond pre post' o d heq c (hset c hc))]
      rw [List.map_map]
      exact congrArg List.flatten (List.map_congr_left (fun c hc => by
        simp only [Function.comp_apply]
        exact stage_step_char pre post' o d heq c (hset c hc)))
    rw [hstep]
    exact ih (pre ++ [(o, d)]) (by rw [heq]; simp) s hset

theorem escChar_eq_stage0 : ∀ c ∈ escapeSet,
    (match alistGet escaped_chars c with
     | some d => ['\\', d]
     | none => [c]) = stageMap [] c := by decide

/-- Counterexample to C9 as stated: the single-character string `"\0"` is made
of escape-set characters, yet the unescape pass does not invert the vendor
escaping on it — the trailing `rstrip("\0")` eats the recovered NUL. -/
theorem C9_counterexample :
    (∀ c ∈ [Char.ofNat 0], c ∈ escapeSet) ∧
    unescapeChars (escapeSpec [Char.ofNat 0]) ≠ [Char.ofNat 0] := by decide

/-- C9 amended: for every string of escape-set characters whose LAST character
is not NUL, the unescape pass inverts the vendor escaping
(`unescape(escape(s)) = s`); strings ending in NUL lose their trailing NULs to
the final `rstrip("\0")`. When the tool-version gate is not satisfied
(versions 3.2, 4.0 and 4.2), the pass leaves the entire log document
unchanged. -/
theorem C9_unescape_round_trip (s : List Char)
    (hset : ∀ c ∈ s, c ∈ escapeSet)
    (hlast : s.getLast? ≠ some (Char.ofNat 0)) :
    unescapeChars (escapeSpec s) = s ∧
    ∀ v log, v = "3.2" ∨ v = "4.0" ∨ v = "4.2" → unescape_eventlog v log = log := by
  constructor
  · have hbody : s.flatMap (fun c => match alistGet escaped_chars c with
        | some d => ['\\', d]
        | none => [c]) = (s.map (stageMap [])).flatten := by
      rw [List.flatMap_def]
      exact congrArg List.flatten
        (List.map_congr_left (fun c hc => escChar_eq_stage0 c (hset c hc)))
    unfold escapeSpec
    rw [hbody]
    unfold unescapeChars
    rw [if_pos ⟨rfl, by
      rw [show ('"' :: ((s.map (stageMap [])).flatten ++ ['"'])) =
        ('"' :: (s.map (stageMap [])).flatten) ++ ['"'] from rfl]
      exact List.getLast?_concat _⟩]
    rw [show (('"' :: ((s.map (stageMap [])).flatten ++ ['"'])).drop 1) =
      (s.map (stageMap [])).flatten ++ ['"'] from rfl]
    rw [List.dropLast_concat]
    have happ : applyUnescapes ((s.map (stageMap [])).flatten) = s := by
      unfold applyUnescapes
      exact unescape_stages escaped_chars [] rfl s hset
    rw [happ, rstripNul_eq_self hlast]
  · intro v log hv
    unfold unescape_eventlog
    rw [if_pos hv]

/-- Witness for the amended C9 at a concrete input: the string
backslash-NUL-quote (escape-set characters, not ending in NUL) round-trips,
and the pass is the identity on a document for tools version 4.2. -/
theorem C9_unescape_round_trip_witness :
    unescapeChars (escapeSpec ['\\', Char.ofNat 0, Char.ofNat 39]) =
      ['\\', Char.ofNat 0, Char.ofNat 39] ∧
    unescape_eventlog "4.2" (Doc.str "MokList") = Doc.str "MokList" :=
  ⟨(C9_unescape_round_trip ['\\', Char.ofNat 0, Char.ofNat 39] (by decide) (by decide)).1,
   (C9_unescape_round_trip [] (by decide) (by decide)).2 "4.2" (Doc.str "MokList")
     (Or.inr (Or.inr rfl))⟩

end KeylimeTpm
